import Mathlib

/-!
# Stellar recovery core: embedding of `main.cpp` and `utils.cpp`

The definitions below transcribe `ProgressTracker::UpdateProgress`,
`FileRecovery::ScanForFiles`, `FileRecovery::RecoverFiles`,
`FileRecovery::GetFileExtension` (all in `src/main.cpp`) and
`Utils::GenerateSessionId`, `Utils::IsValidRecoveryPath`,
`Utils::FormatFileSize` and `Utils::FormatDuration` (`src/utils.cpp`).

Modelling conventions.
* `double` values are exact rationals (no NaN, no infinities). The comparisons
  evaluated on concrete inputs below (scan confidences against 1.0, sample
  confidences against 0.7) are between values that differ by at least 1/20,
  far above double rounding error. For `FormatFileSize` the conversion of the
  64-bit count to `double` is modelled with its rounding (`toDouble`); the
  divisions by 1024 that follow are exact in `double`. For `FormatDuration`
  the argument is a `double` (`IsDouble`) and every division and subtraction
  is rounded to `double` (`roundNearest`).
* `int` loop counters that stay within 0..105 are natural numbers; `size_t` is
  64 bits wide and `int` 32 bits wide, with the wrap-around written out where
  a product, a sum or a conversion could overflow: an overflowing `int`
  result takes its two's complement value (`wrapInt32`), which is what the
  usual compilers produce for the undefined signed overflow.
* `std::chrono::system_clock::now()` is a reading supplied by the caller: the
  scan receives a function from the loop index to the reading taken in that
  iteration, `GenerateSessionId` receives the reading itself.
* `std::cout` is a list of structured progress lines kept next to
  `lastPercentage`; the remaining banner lines carry no state and are left out.
* `std::this_thread::sleep_for` only lets time pass and is left out.
-/

namespace Stellar

/-! ## Data model (`main.cpp`, lines 39-85) -/

/-- The enumeration `RecoveryMode`. -/
inductive RecoveryMode where
  | QUICK_SCAN
  | DEEP_SCAN
  | RAW_RECOVERY
  | PARTITION_RECOVERY
  deriving DecidableEq, Repr

/-- The enumeration `FileType`. -/
inductive FileType where
  | PHOTO
  | VIDEO
  | AUDIO
  | DOCUMENT
  | EMAIL
  | ARCHIVE
  | ALL_DATA
  deriving DecidableEq, Repr

/-- The struct `RecoveryResult`; `dateModified` is a clock reading. -/
structure RecoveryResult where
  fileName : String
  originalPath : String
  recoveryPath : String
  fileSize : Nat
  dateModified : Nat
  isRecovered : Bool
  confidence : ℚ
  deriving DecidableEq

/-! ## ProgressTracker (`main.cpp`, lines 90-107) -/

/-- One update written by `UpdateProgress`: the two repeat counts requested
from `std::string(count, ch)` (as the `int` expressions of the source), the
percentage printed and the operation text. -/
structure ProgressLine where
  equalsCount : Int
  spacesCount : Int
  percentage : Int
  operation : String
  deriving DecidableEq

/-- The class `ProgressTracker`: its one member `lastPercentage`, the updates it
has written so far (`emitted`, oldest first) and the trace of every call of
`UpdateProgress` (`calls`, oldest first). -/
structure ProgressTracker where
  lastPercentage : Int
  emitted : List ProgressLine
  calls : List (Int × String)
  deriving DecidableEq

/-- A freshly constructed tracker: `int lastPercentage = -1`. -/
def ProgressTracker.fresh : ProgressTracker :=
  { lastPercentage := -1, emitted := [], calls := [] }

/-- Whether the bar for `percentage` asks `std::string(count, ch)` for a
negative count. The count is converted to `size_t`, exceeds `max_size()` and
the constructor throws `std::length_error`. The `int` division
`percentage / 2` truncates toward zero. -/
def barThrows (percentage : Int) : Bool :=
  decide (Int.tdiv percentage 2 < 0 ∨ 50 - Int.tdiv percentage 2 < 0)

/-- Whether a call of `UpdateProgress` ends with `std::length_error`: the
percentage differs from `lastPercentage` and the bar cannot be built. -/
def UpdateProgressThrows (t : ProgressTracker) (percentage : Int) : Bool :=
  decide (percentage ≠ t.lastPercentage) && barThrows percentage

/-- `ProgressTracker::UpdateProgress`: the tracker after the call. When the bar
cannot be built the exception leaves the function before
`lastPercentage = percentage` is reached, so the member keeps its value and
no complete update has been written (`UpdateProgressThrows` tells whether the
call ended this way). -/
def UpdateProgress (t : ProgressTracker) (percentage : Int) (currentOperation : String) :
    ProgressTracker :=
  if percentage ≠ t.lastPercentage then
    if barThrows percentage then
      { t with calls := t.calls ++ [(percentage, currentOperation)] }
    else
      { lastPercentage := percentage
        emitted := t.emitted ++
          [{ equalsCount := Int.tdiv percentage 2
             spacesCount := 50 - Int.tdiv percentage 2
             percentage := percentage
             operation := currentOperation }]
        calls := t.calls ++ [(percentage, currentOperation)] }
  else
    { t with calls := t.calls ++ [(percentage, currentOperation)] }

/-- `ProgressTracker::Complete` prints a line break and touches no member. -/
def Complete (t : ProgressTracker) : ProgressTracker := t

/-! ## FileRecovery (`main.cpp`, lines 225-359) -/

/-- `FileRecovery::GetFileExtension`. -/
def GetFileExtension : FileType → String
  | FileType.PHOTO => ".jpg"
  | FileType.VIDEO => ".mp4"
  | FileType.AUDIO => ".mp3"
  | FileType.DOCUMENT => ".docx"
  | FileType.EMAIL => ".eml"
  | FileType.ARCHIVE => ".zip"
  | FileType.ALL_DATA => ".dat"

/-- The state of the scanning loop: the `results` vector and the tracker. -/
structure ScanState where
  results : List RecoveryResult
  tracker : ProgressTracker

/-- The body of the loop of `ScanForFiles` at loop index `i`. The loop indices
are 0, 5, ..., 100, for which `UpdateProgress` does not throw, so the loop is
never left by an exception. -/
def scanBody (drivePath : String) (fileType : FileType) (clock : Nat → Nat) (i : Nat)
    (st : ScanState) : ScanState :=
  let tracker := UpdateProgress st.tracker (i : Int) "Scanning sectors..."
  if i % 20 = 0 ∧ i > 0 then
    let fileName := "recovered_file_" ++ toString (i / 20) ++ GetFileExtension fileType
    let result : RecoveryResult :=
      { fileName := fileName
        originalPath := drivePath ++ "\\" ++ fileName
        recoveryPath := ""
        fileSize := 1024 * (i / 20 + 1)
        confidence := 85 / 100 + (i : ℚ) / 200
        isRecovered := false
        dateModified := clock i }
    { results := st.results ++ [result], tracker := tracker }
  else
    { results := st.results, tracker := tracker }

/-- The loop `for (int i = 0; i <= 100; i += 5)` of `ScanForFiles`, entered at
loop index `i`. -/
def scanLoop (drivePath : String) (fileType : FileType) (clock : Nat → Nat) (i : Nat)
    (st : ScanState) : ScanState :=
  if i ≤ 100 then
    scanLoop drivePath fileType clock (i + 5) (scanBody drivePath fileType clock i st)
  else
    st
termination_by 101 - i

/-- `FileRecovery::ScanForFiles`: the returned vector and the tracker afterwards.
The mode is only printed in the banner. -/
def ScanForFiles (drivePath : String) (_mode : RecoveryMode) (fileType : FileType)
    (clock : Nat → Nat) (t : ProgressTracker) : List RecoveryResult × ProgressTracker :=
  let st := scanLoop drivePath fileType clock 0 { results := [], tracker := t }
  (st.results, Complete st.tracker)

/-- Conversion of a `size_t` value to `int` (`static_cast<int>`), 64-bit
`size_t` and 32-bit `int`. -/
def sizeToInt (x : Nat) : Int :=
  ((x % 2 ^ 32 + 2 ^ 31) % 2 ^ 32 : Nat) - 2 ^ 31

/-- A product or sum computed in 32-bit `int`. -/
def wrapInt32 (x : Int) : Int :=
  (x + 2 ^ 31) % 2 ^ 32 - 2 ^ 31

/-- The state of the recovery loop: the `files` vector (mutated in place), the
tracker and the `int` counter `recovered`. -/
structure RecoverState where
  files : List RecoveryResult
  tracker : ProgressTracker
  recovered : Int

/-- The body of the loop of `RecoverFiles` at index `i`. The product `i * 100`
is computed in `size_t`, the increment `recovered++` in `int`. The loop only
visits indices below `files.size()`, so the first branch of the match is never
taken, and the percentage lies in 0..100, for which `UpdateProgress` does not
throw (`recoverPercent_range`). -/
def recoverBody (outputPath : String) (st : RecoverState) (i : Nat) : RecoverState :=
  match st.files[i]? with
  | none => st
  | some f =>
    let progress := sizeToInt ((i * 100) % 2 ^ 64 / st.files.length)
    let tracker := UpdateProgress st.tracker progress ("Recovering: " ++ f.fileName)
    if f.confidence > 7 / 10 then
      { files := st.files.set i
          { f with isRecovered := true, recoveryPath := outputPath ++ "\\" ++ f.fileName }
        tracker := tracker
        recovered := wrapInt32 (st.recovered + 1) }
    else
      { st with tracker := tracker }

/-- `FileRecovery::RecoverFiles`: the return value, the vector afterwards and
the tracker afterwards. The loop `for (size_t i = 0; i < files.size(); i++)`
visits the indices in increasing order; the body never changes the size. -/
def RecoverFiles (files : List RecoveryResult) (outputPath : String) (t : ProgressTracker) :
    Bool × List RecoveryResult × ProgressTracker :=
  let st := (List.range files.length).foldl (recoverBody outputPath)
    { files := files, tracker := t, recovered := 0 }
  (decide (st.recovered > 0), st.files, Complete st.tracker)

/-! ## Utils (`utils.cpp`, lines 160-174) -/

/-- The manipulators `std::setfill('0') << std::setw(3)` applied to a
non-negative count: zeros are put in front until three characters are reached. -/
def padLeft3 (n : Nat) : String :=
  String.mk (List.replicate (3 - (toString n).length) '0') ++ toString n

/-- `Utils::GenerateSessionId`. `now` is the reading of `system_clock::now()` in
clock ticks since the epoch and `ticksPerSecond` the resolution of that clock
(10^7 with the Microsoft library, 10^9 with libstdc++); `localStamp` stands for
the library call `std::put_time(std::localtime(&time_t), "%Y%m%d_%H%M%S")`,
which sees only the whole seconds `time_t`. -/
def GenerateSessionId (localStamp : Nat → String) (ticksPerSecond : Nat) (now : Nat) : String :=
  let time_t := now / ticksPerSecond
  let ms := (now * 1000 / ticksPerSecond) % 1000
  "STELLAR_" ++ localStamp time_t ++ "_" ++ padLeft3 ms

/-! ## Auxiliary definitions used in the statements -/

/-- The percentages passed to `UpdateProgress` between two tracker states, in
call order. -/
def passedPercentages (before after : ProgressTracker) : List Int :=
  (after.calls.drop before.calls.length).map Prod.fst

/-- The percentages written to the console between two tracker states, in
output order. -/
def emittedPercentages (before after : ProgressTracker) : List Int :=
  (after.emitted.drop before.emitted.length).map (fun l => l.percentage)

/-- A sequence of calls of `UpdateProgress`, oldest first. -/
def runUpdates (t : ProgressTracker) (ps : List (Int × String)) : ProgressTracker :=
  ps.foldl (fun tr q => UpdateProgress tr q.1 q.2) t


/-- The candidate the scan creates at loop index `20 * k`. -/
def scanCandidate (drivePath : String) (fileType : FileType) (clock : Nat → Nat) (k : Nat) :
    RecoveryResult :=
  { fileName := "recovered_file_" ++ toString k ++ GetFileExtension fileType
    originalPath := drivePath ++ "\\" ++ ("recovered_file_" ++ toString k ++ GetFileExtension fileType)
    recoveryPath := ""
    fileSize := 1024 * (k + 1)
    confidence := 85 / 100 + ((20 * k : Nat) : ℚ) / 200
    isRecovered := false
    dateModified := clock (20 * k) }

/-- What the body of the recovery loop does to the entry it visits. -/
def recoverEntry (outputPath : String) (f : RecoveryResult) : RecoveryResult :=
  if f.confidence > 7 / 10 then
    { f with isRecovered := true, recoveryPath := outputPath ++ "\\" ++ f.fileName }
  else f

/-- The percentage the recovery loop computes at index `i` for `n` files. -/
def recoverPercent (n i : Nat) : Int :=
  sizeToInt ((i * 100) % 2 ^ 64 / n)

/-- The fields of an entry that the recovery loop never writes. -/
def frameOf (r : RecoveryResult) : String × String × Nat × Nat × ℚ :=
  (r.fileName, r.originalPath, r.fileSize, r.dateModified, r.confidence)

/-- The evidence of a scan result: every field but the time stamp and the
(empty) recovery path. -/
def evidenceOf (r : RecoveryResult) : String × String × Nat × Bool × ℚ :=
  (r.fileName, r.originalPath, r.fileSize, r.isRecovered, r.confidence)

/-! ## Sample inputs -/

/-- A candidate named `photo.jpg` found under `C:\a`. -/
def samplePhotoA : RecoveryResult :=
  { fileName := "photo.jpg", originalPath := "C:\\a\\photo.jpg", recoveryPath := "",
    fileSize := 100, dateModified := 0, isRecovered := false, confidence := 9 / 10 }

/-- A second candidate with the same file name, found under `C:\b`. -/
def samplePhotoB : RecoveryResult :=
  { fileName := "photo.jpg", originalPath := "C:\\b\\photo.jpg", recoveryPath := "",
    fileSize := 200, dateModified := 0, isRecovered := false, confidence := 9 / 10 }

/-- A candidate below the recovery threshold. -/
def sampleWeak : RecoveryResult :=
  { fileName := "notes.docx", originalPath := "C:\\notes.docx", recoveryPath := "",
    fileSize := 300, dateModified := 0, isRecovered := false, confidence := 1 / 2 }

/-- A candidate above the recovery threshold with a name of its own. -/
def sampleSong : RecoveryResult :=
  { fileName := "song.mp3", originalPath := "C:\\song.mp3", recoveryPath := "",
    fileSize := 400, dateModified := 0, isRecovered := false, confidence := 19 / 20 }

/-- An entry that an earlier call already recovered into `D:\first`. -/
def sampleDone : RecoveryResult :=
  { fileName := "photo.jpg", originalPath := "C:\\a\\photo.jpg",
    recoveryPath := "D:\\first\\photo.jpg",
    fileSize := 100, dateModified := 0, isRecovered := true, confidence := 9 / 10 }

/-- An entry flagged recovered on input, without a destination and below the
recovery threshold. -/
def sampleStale : RecoveryResult :=
  { fileName := "notes.docx", originalPath := "C:\\notes.docx", recoveryPath := "",
    fileSize := 300, dateModified := 0, isRecovered := true, confidence := 1 / 2 }

/-! ## Utils::IsValidRecoveryPath (`utils.cpp`, lines 138-158) -/

/-- The services of `std::filesystem` that `IsValidRecoveryPath` calls. A call
that throws returns `Except.error` with the text of the exception; everything
these calls throw derives from `std::exception`. -/
structure FileSystem where
  /-- The constructor `std::filesystem::path fsPath(path)`. -/
  makePath : String → Except String String
  /-- The member `parent_path()`; `has_parent_path()` tells whether it is non-empty. -/
  parent_path : String → String
  /-- The existence oracle `std::filesystem::exists`. -/
  pathExists : String → Except String Bool

/-- The `try` block of `IsValidRecoveryPath`. -/
def IsValidRecoveryPath.tryBlock (fs : FileSystem) (path : String) : Except String Bool :=
  match fs.makePath path with
  | Except.error e => Except.error e
  | Except.ok fsPath =>
    if fs.parent_path fsPath ≠ "" then
      fs.pathExists (fs.parent_path fsPath)
    else
      Except.ok true

/-- `Utils::IsValidRecoveryPath`: the guard for the empty path, then the `try`
block with `catch (const std::exception&)` returning false. The result is
`Except.ok b` when the function returns `b` and `Except.error` when an
exception leaves it. -/
def IsValidRecoveryPath (fs : FileSystem) (path : String) : Except String Bool :=
  if path = "" then
    Except.ok false
  else
    match IsValidRecoveryPath.tryBlock fs path with
    | Except.ok b => Except.ok b
    | Except.error _ => Except.ok false

/-- A sample file system in which only the directory `D:\out` exists; the
parent of a path is what stands before its last backslash. -/
def sampleFileSystem : FileSystem :=
  { makePath := fun p => Except.ok p
    parent_path := fun p => String.mk ((p.data.reverse.dropWhile (fun c => c ≠ '\\')).drop 1).reverse
    pathExists := fun p => Except.ok (decide (p = "D:\\out")) }

/-! ## Division by the vector size -/

/-- The body of the recovery loop with the division `(i * 100) / files.size()`
made explicit: `none` when the divisor is zero. -/
def recoverBodyChecked (outputPath : String) (st : RecoverState) (i : Nat) :
    Option RecoverState :=
  if st.files.length = 0 then none else some (recoverBody outputPath st i)

/-- `FileRecovery::RecoverFiles` with the checked loop body: `none` when some
iteration divides by zero. -/
def RecoverFilesChecked (files : List RecoveryResult) (outputPath : String)
    (t : ProgressTracker) : Option (Bool × List RecoveryResult × ProgressTracker) :=
  match (List.range files.length).foldlM (recoverBodyChecked outputPath)
      { files := files, tracker := t, recovered := 0 } with
  | none => none
  | some st => some (decide (st.recovered > 0), st.files, Complete st.tracker)

/-! ## The text of a progress update -/

/-- The text `UpdateProgress` sends to `std::cout` for one update. A negative
repeat count converted to `size_t` makes `std::string(count, ch)` throw; this is
`none`. -/
def renderLine (l : ProgressLine) : Option String :=
  if 0 ≤ l.equalsCount ∧ 0 ≤ l.spacesCount then
    some ("\r[" ++ String.mk (List.replicate l.equalsCount.toNat '=')
      ++ String.mk (List.replicate l.spacesCount.toNat ' ') ++ "] "
      ++ toString l.percentage ++ "% - " ++ l.operation)
  else
    none

/-! ## Utils::FormatFileSize (`utils.cpp`, lines 22-42) -/

/-- Rounding of a natural number to a multiple of `2 ^ e`, to the nearest
multiple and to the even quotient on a tie. -/
def roundHalfEven (e : Nat) (bytes : Nat) : Nat :=
  let q := bytes / 2 ^ e
  let r := bytes % 2 ^ e
  if 2 * r < 2 ^ e then q * 2 ^ e
  else if 2 ^ e < 2 * r then (q + 1) * 2 ^ e
  else if q % 2 = 0 then q * 2 ^ e
  else (q + 1) * 2 ^ e

/-- The conversion `static_cast<double>(bytes)` of a 64-bit count: a count
below 2^53 is kept, a larger one is rounded to 53 significant bits (nearest,
ties to even), which is what the hardware conversion does. -/
def toDouble (bytes : Nat) : ℚ :=
  if bytes < 2 ^ 53 then (bytes : ℚ) else ((roundHalfEven (Nat.log2 bytes - 52) bytes : Nat) : ℚ)

/-- The loop `while (size >= 1024.0 && unit < 5) { size /= 1024.0; unit++; }`
entered with the given values; it returns `size` and `unit` at the exit.
`unit` starts at 0 and grows by one per iteration, so the value returned is
also the number of iterations run. Dividing a double by 1024 only lowers its
exponent, so the rational quotient is the value of the double. -/
def formatLoop (size : ℚ) (unit : Nat) : ℚ × Nat :=
  if size ≥ 1024 ∧ unit < 5 then formatLoop (size / 1024) (unit + 1) else (size, unit)
termination_by 5 - unit

/-- The array `units` of `FormatFileSize`. -/
def units : List String := ["B", "KB", "MB", "GB", "TB", "PB"]

/-- `Utils::FormatFileSize`. `fixed2` stands for the stream output
`std::fixed << std::setprecision(2) << size`; `static_cast<uint64_t>(size)`
drops the fraction. -/
def FormatFileSize (fixed2 : ℚ → String) (bytes : Nat) : String :=
  let r := formatLoop (toDouble bytes) 0
  if r.2 = 0 then
    toString ⌊r.1⌋₊ ++ " " ++ units.getD r.2 ""
  else
    fixed2 r.1 ++ " " ++ units.getD r.2 ""

/-! ## Utils::FormatDuration (`utils.cpp`, lines 44-61) -/

/-- Rounding of a rational to an integer: to the nearest one, to the even one
on a tie. -/
def roundHalfEvenRat (y : ℚ) : ℤ :=
  if 2 * (y - ⌊y⌋) < 1 then ⌊y⌋
  else if 1 < 2 * (y - ⌊y⌋) then ⌊y⌋ + 1
  else if ⌊y⌋ % 2 = 0 then ⌊y⌋
  else ⌊y⌋ + 1

/-- The result of a `double` operation whose exact value is `x`: `x` rounded to
53 significant bits (nearest, ties to even). The exponent range is left out:
the operations of `FormatDuration` never produce a non-zero value below
2^-1022 or a value above 2^1023. -/
def roundNearest (x : ℚ) : ℚ :=
  if x = 0 then 0
  else if 0 < x then
    (roundHalfEvenRat (x / (2 : ℚ) ^ (Int.log 2 x - 52)) : ℚ) * (2 : ℚ) ^ (Int.log 2 x - 52)
  else
    -((roundHalfEvenRat (-x / (2 : ℚ) ^ (Int.log 2 (-x) - 52)) : ℚ)
      * (2 : ℚ) ^ (Int.log 2 (-x) - 52))

/-- The non-negative values of type `double`: a significand below 2^53 times a
power of two. -/
def IsDouble (x : ℚ) : Prop :=
  ∃ (m : Nat) (e : Int), m < 2 ^ 53 ∧ -1074 ≤ e ∧ e ≤ 971 ∧ x = (m : ℚ) * (2 : ℚ) ^ e

/-- The conversion `static_cast<int>(x)` of a `double`: the fraction is
dropped. A value outside the range of `int` makes the conversion undefined; it
is left as it is. -/
def castInt (x : ℚ) : Int :=
  if 0 ≤ x then ⌊x⌋ else ⌈x⌉

/-- `Utils::FormatDuration`; `seconds` is `duration.count()`, a `double`. Each
division and the subtraction are rounded to `double`; `hours * 3600` is an `int`
product, converted exactly. -/
def FormatDuration (seconds : ℚ) : String :=
  if seconds < 60 then
    toString (castInt seconds) ++ " seconds"
  else if seconds < 3600 then
    let minutes := castInt (roundNearest (seconds / 60))
    let remainingSeconds := Int.tmod (castInt seconds) 60
    toString minutes ++ "m " ++ toString remainingSeconds ++ "s"
  else
    let hours := castInt (roundNearest (seconds / 3600))
    let minutes :=
      castInt (roundNearest (roundNearest (seconds - (wrapInt32 (hours * 3600) : Int)) / 60))
    toString hours ++ "h " ++ toString minutes ++ "m"

/-- The stream output `std::fixed << std::setprecision(2) << x` of a
non-negative `double`: the exact value rounded to two decimals (ties to
even), printed as the integer part, a point and two digits. -/
def fixedTwo (x : ℚ) : String :=
  let n := (roundHalfEvenRat (x * 100)).toNat
  toString (n / 100) ++ "." ++ (if n % 100 < 10 then "0" else "") ++ toString (n % 100)

/-! ## Basic facts about `UpdateProgress` -/

theorem tdiv_two_range (p : Int) (h1 : -1 ≤ p) (h2 : p ≤ 101) :
    0 ≤ Int.tdiv p 2 ∧ Int.tdiv p 2 ≤ 50 := by
  rcases lt_or_le p 0 with hneg | hpos
  · have hp : p = -1 := by omega
    subst hp
    decide
  · rw [Int.tdiv_eq_ediv hpos (by norm_num)]
    omega

theorem barThrows_of_range (p : Int) (h1 : -1 ≤ p) (h2 : p ≤ 101) : barThrows p = false := by
  obtain ⟨ha, hb⟩ := tdiv_two_range p h1 h2
  unfold barThrows
  rw [decide_eq_false_iff_not]
  omega

theorem barThrows_of_outside (p : Int) (h : p ≤ -2 ∨ 102 ≤ p) : barThrows p = true := by
  unfold barThrows
  rw [decide_eq_true_iff]
  rcases h with h | h
  · left
    obtain ⟨n, hn⟩ : ∃ n : Int, p = -n := ⟨-p, by omega⟩
    subst hn
    rw [Int.neg_tdiv, Int.tdiv_eq_ediv (by omega) (by norm_num)]
    omega
  · right
    rw [Int.tdiv_eq_ediv (by omega) (by norm_num)]
    omega

theorem UpdateProgress_calls (t : ProgressTracker) (p : Int) (op : String) :
    (UpdateProgress t p op).calls = t.calls ++ [(p, op)] := by
  unfold UpdateProgress
  by_cases h : p = t.lastPercentage
  · simp [h]
  · cases hb : barThrows p <;> simp [h, hb]

theorem UpdateProgress_lastPercentage (t : ProgressTracker) (p : Int) (op : String)
    (h1 : -1 ≤ p) (h2 : p ≤ 101) :
    (UpdateProgress t p op).lastPercentage = p := by
  unfold UpdateProgress
  by_cases h : p = t.lastPercentage
  · simp [h]
  · simp [h, barThrows_of_range p h1 h2]

theorem UpdateProgress_emitted (t : ProgressTracker) (p : Int) (op : String)
    (h1 : -1 ≤ p) (h2 : p ≤ 101) :
    (UpdateProgress t p op).emitted =
      if p ≠ t.lastPercentage then
        t.emitted ++ [{ equalsCount := Int.tdiv p 2, spacesCount := 50 - Int.tdiv p 2,
                        percentage := p, operation := op }]
      else t.emitted := by
  unfold UpdateProgress
  by_cases h : p = t.lastPercentage
  · simp [h]
  · simp [h, barThrows_of_range p h1 h2]

theorem UpdateProgress_of_throws (t : ProgressTracker) (p : Int) (op : String)
    (h : UpdateProgressThrows t p = true) :
    UpdateProgress t p op = { t with calls := t.calls ++ [(p, op)] } := by
  unfold UpdateProgressThrows at h
  rw [Bool.and_eq_true, decide_eq_true_iff] at h
  unfold UpdateProgress
  rw [if_pos h.1, if_pos h.2]

/-! ## Unrolling the scanning loop -/

theorem scanLoop_step (drivePath : String) (fileType : FileType) (clock : Nat → Nat) (i : Nat)
    (st : ScanState) (h : i ≤ 100) :
    scanLoop drivePath fileType clock i st =
      scanLoop drivePath fileType clock (i + 5) (scanBody drivePath fileType clock i st) := by
  rw [scanLoop, if_pos h]

theorem scanLoop_done (drivePath : String) (fileType : FileType) (clock : Nat → Nat) (i : Nat)
    (st : ScanState) (h : 100 < i) :
    scanLoop drivePath fileType clock i st = st := by
  rw [scanLoop, if_neg (by omega)]

theorem ScanForFiles_results (drivePath : String) (mode : RecoveryMode) (fileType : FileType)
    (clock : Nat → Nat) (t : ProgressTracker) :
    (ScanForFiles drivePath mode fileType clock t).1 =
      [scanCandidate drivePath fileType clock 1, scanCandidate drivePath fileType clock 2,
       scanCandidate drivePath fileType clock 3, scanCandidate drivePath fileType clock 4,
       scanCandidate drivePath fileType clock 5] := by
  simp [ScanForFiles, scanLoop_step, scanLoop_done, scanBody, scanCandidate]

theorem ScanForFiles_calls (drivePath : String) (mode : RecoveryMode) (fileType : FileType)
    (clock : Nat → Nat) (t : ProgressTracker) :
    (ScanForFiles drivePath mode fileType clock t).2.calls =
      t.calls ++ (List.range 21).map (fun j => (((5 * j : Nat) : Int), "Scanning sectors...")) := by
  simp [ScanForFiles, scanLoop_step, scanLoop_done, scanBody, Complete, UpdateProgress_calls,
    List.range, List.range.loop]

/-! ## Arithmetic in `int` -/

theorem wrapInt32_idem (a : Int) : wrapInt32 (wrapInt32 a) = wrapInt32 a := by
  unfold wrapInt32
  omega

theorem wrapInt32_add_left (a b : Int) : wrapInt32 (wrapInt32 a + b) = wrapInt32 (a + b) := by
  unfold wrapInt32
  omega

theorem recoverBody_at (outputPath : String) (pre suf : List RecoveryResult) (f : RecoveryResult)
    (t : ProgressTracker) (r : Int) :
    recoverBody outputPath { files := pre ++ f :: suf, tracker := t, recovered := r } pre.length =
      { files := (pre ++ [recoverEntry outputPath f]) ++ suf
        tracker := UpdateProgress t (recoverPercent (pre.length + (suf.length + 1)) pre.length)
          ("Recovering: " ++ f.fileName)
        recovered := if f.confidence > 7 / 10 then wrapInt32 (r + 1) else r } := by
  have hget : (pre ++ f :: suf)[pre.length]? = some f := by
    rw [List.getElem?_append_right (Nat.le_refl _)]
    simp
  simp only [recoverBody, hget, recoverEntry, recoverPercent]
  by_cases h : f.confidence > 7 / 10
  · simp [h]
  · simp [h]

theorem recoverLoop_spec (outputPath : String) :
    ∀ (suf pre : List RecoveryResult) (t : ProgressTracker) (r : Int),
      ((List.range' pre.length suf.length).foldl (recoverBody outputPath)
          { files := pre ++ suf, tracker := t, recovered := r }).files =
        pre ++ suf.map (recoverEntry outputPath) ∧
      (wrapInt32 r = r →
        ((List.range' pre.length suf.length).foldl (recoverBody outputPath)
          { files := pre ++ suf, tracker := t, recovered := r }).recovered =
        wrapInt32 (r + (suf.countP (fun f => decide (f.confidence > 7 / 10)) : Nat))) ∧
      (((List.range' pre.length suf.length).foldl (recoverBody outputPath)
          { files := pre ++ suf, tracker := t, recovered := r }).tracker.calls).map Prod.fst =
        t.calls.map Prod.fst ++
          (List.range' pre.length suf.length).map (recoverPercent (pre.length + suf.length)) := by
  intro suf
  induction suf with
  | nil =>
    intro pre t r
    refine ⟨by simp, ?_, by simp⟩
    intro hr
    simp [hr]
  | cons f suf ih =>
    intro pre t r
    have h := ih (pre ++ [recoverEntry outputPath f])
      (UpdateProgress t (recoverPercent (pre.length + (suf.length + 1)) pre.length)
        ("Recovering: " ++ f.fileName))
      (if f.confidence > 7 / 10 then wrapInt32 (r + 1) else r)
    simp only [List.length_append, List.length_singleton] at h
    simp only [List.length_cons, List.range', List.foldl_cons, recoverBody_at]
    obtain ⟨h1, h2, h3⟩ := h
    refine ⟨?_, ?_, ?_⟩
    · rw [h1]; simp
    · intro hr
      by_cases hc : f.confidence > 7 / 10
      · have hcount : (f :: suf).countP (fun f => decide (f.confidence > 7 / 10)) =
            suf.countP (fun f => decide (f.confidence > 7 / 10)) + 1 := by
          simp [List.countP_cons, hc]
        rw [if_pos hc] at h2
        rw [if_pos hc, h2 (wrapInt32_idem _), wrapInt32_add_left, hcount]
        congr 1
        push_cast
        ring
      · have hcount : (f :: suf).countP (fun f => decide (f.confidence > 7 / 10)) =
            suf.countP (fun f => decide (f.confidence > 7 / 10)) := by
          simp [List.countP_cons, hc]
        rw [if_neg hc] at h2
        rw [if_neg hc, h2 hr, hcount]
    · rw [h3, UpdateProgress_calls]
      simp [Nat.add_assoc, Nat.add_comm 1]

theorem RecoverFiles_files (files : List RecoveryResult) (outputPath : String)
    (t : ProgressTracker) :
    (RecoverFiles files outputPath t).2.1 = files.map (recoverEntry outputPath) := by
  have h := (recoverLoop_spec outputPath files [] t 0).1
  simpa [RecoverFiles, List.range_eq_range'] using h

theorem RecoverFiles_percentages (files : List RecoveryResult) (outputPath : String)
    (t : ProgressTracker) :
    ((RecoverFiles files outputPath t).2.2.calls).map Prod.fst =
      t.calls.map Prod.fst ++ (List.range files.length).map (recoverPercent files.length) := by
  have h := (recoverLoop_spec outputPath files [] t 0).2.2
  simpa [RecoverFiles, Complete, List.range_eq_range'] using h

theorem RecoverFiles_value (files : List RecoveryResult) (outputPath : String)
    (t : ProgressTracker) :
    (RecoverFiles files outputPath t).1 =
      decide (0 < wrapInt32 (files.countP (fun f => decide (f.confidence > 7 / 10)) : Nat)) := by
  have h := (recoverLoop_spec outputPath files [] t 0).2.1 (by decide)
  simp only [List.length_nil, List.nil_append, zero_add] at h
  simp [RecoverFiles, List.range_eq_range', h]

/-! ## Strings -/

theorem string_append_left_cancel (a b c : String) : a ++ b = a ++ c ↔ b = c := by
  constructor
  · intro h
    have h2 := congrArg String.data h
    simp only [String.data_append] at h2
    exact String.ext (List.append_cancel_left h2)
  · intro h; rw [h]

/-! ## Claims about the scan results and the recovery loop -/

/-- Claim C1 (defect in the code). For every drive path, mode, file type, clock
and tracker the five results of `ScanForFiles` carry the confidences 0.95, 1.05,
1.15, 1.25 and 1.35, so a result with confidence above 1.0 is returned and the
interval [0.0, 1.0] is left. -/
theorem C1_scan_confidence_exceeds_one (drivePath : String) (mode : RecoveryMode)
    (fileType : FileType) (clock : Nat → Nat) (t : ProgressTracker) :
    (ScanForFiles drivePath mode fileType clock t).1.map (fun r => r.confidence) =
        [19 / 20, 21 / 20, 23 / 20, 5 / 4, 27 / 20] ∧
      ∃ r ∈ (ScanForFiles drivePath mode fileType clock t).1, 1 < r.confidence := by
  rw [ScanForFiles_results]
  refine ⟨?_, scanCandidate drivePath fileType clock 2, by simp, ?_⟩
  · simp [scanCandidate]
    norm_num
  · simp [scanCandidate]
    norm_num

/-- Claim C2. For every drive path and file type filter, every result of a
QUICK_SCAN has a result of the DEEP_SCAN of the same drive and filter with the
same fileName, originalPath and fileSize, whatever the clocks and trackers of
the two runs. -/
theorem C2_deep_scan_contains_quick_scan (drivePath : String) (fileType : FileType)
    (clockQ clockD : Nat → Nat) (tQ tD : ProgressTracker) :
    ∀ r ∈ (ScanForFiles drivePath RecoveryMode.QUICK_SCAN fileType clockQ tQ).1,
      ∃ d ∈ (ScanForFiles drivePath RecoveryMode.DEEP_SCAN fileType clockD tD).1,
        d.fileName = r.fileName ∧ d.originalPath = r.originalPath ∧ d.fileSize = r.fileSize := by
  intro r hr
  rw [ScanForFiles_results] at hr ⊢
  simp only [List.mem_cons, List.mem_singleton, List.not_mem_nil, or_false] at hr
  rcases hr with h | h | h | h | h <;> subst h
  · exact ⟨scanCandidate drivePath fileType clockD 1, by simp, rfl, rfl, rfl⟩
  · exact ⟨scanCandidate drivePath fileType clockD 2, by simp, rfl, rfl, rfl⟩
  · exact ⟨scanCandidate drivePath fileType clockD 3, by simp, rfl, rfl, rfl⟩
  · exact ⟨scanCandidate drivePath fileType clockD 4, by simp, rfl, rfl, rfl⟩
  · exact ⟨scanCandidate drivePath fileType clockD 5, by simp, rfl, rfl, rfl⟩

/-- Witness for C2: the first quick-scan candidate of drive `C:` with the PHOTO
filter is found again by a deep scan run at another time. -/
theorem C2_deep_scan_contains_quick_scan_witness :
    scanCandidate "C:" FileType.PHOTO (fun _ => 0) 1 ∈
        (ScanForFiles "C:" RecoveryMode.QUICK_SCAN FileType.PHOTO (fun _ => 0)
          ProgressTracker.fresh).1 ∧
      ∃ d ∈ (ScanForFiles "C:" RecoveryMode.DEEP_SCAN FileType.PHOTO (fun i => 1000 + i)
          ProgressTracker.fresh).1,
        d.fileName = (scanCandidate "C:" FileType.PHOTO (fun _ => 0) 1).fileName ∧
        d.originalPath = (scanCandidate "C:" FileType.PHOTO (fun _ => 0) 1).originalPath ∧
        d.fileSize = (scanCandidate "C:" FileType.PHOTO (fun _ => 0) 1).fileSize :=
  have hmem : scanCandidate "C:" FileType.PHOTO (fun _ => 0) 1 ∈
      (ScanForFiles "C:" RecoveryMode.QUICK_SCAN FileType.PHOTO (fun _ => 0)
        ProgressTracker.fresh).1 := by
    rw [ScanForFiles_results]; simp
  ⟨hmem, C2_deep_scan_contains_quick_scan "C:" FileType.PHOTO (fun _ => 0) (fun i => 1000 + i)
    ProgressTracker.fresh ProgressTracker.fresh _ hmem⟩

theorem recoverEntry_of_gt (outputPath : String) (f : RecoveryResult)
    (h : 7 / 10 < f.confidence) :
    recoverEntry outputPath f =
      { f with isRecovered := true, recoveryPath := outputPath ++ "\\" ++ f.fileName } := by
  unfold recoverEntry
  rw [if_pos h]

theorem recoverEntry_of_le (outputPath : String) (f : RecoveryResult)
    (h : ¬ 7 / 10 < f.confidence) : recoverEntry outputPath f = f := by
  unfold recoverEntry
  rw [if_neg h]

theorem RecoverFiles_getElem_opt (files : List RecoveryResult) (outputPath : String)
    (t : ProgressTracker) (i : Nat) :
    (RecoverFiles files outputPath t).2.1[i]? = (files[i]?).map (recoverEntry outputPath) := by
  rw [RecoverFiles_files, List.getElem?_map]

/-- Counterexample to C3: two candidates that share the file name `photo.jpg`
are both marked recovered and both receive the destination
`D:\out\photo.jpg`. -/
theorem C3_same_name_same_destination :
    (RecoverFiles [samplePhotoA, samplePhotoB] "D:\\out" ProgressTracker.fresh).2.1.map
        (fun r => (r.isRecovered, r.recoveryPath)) =
      [(true, "D:\\out\\photo.jpg"), (true, "D:\\out\\photo.jpg")] := by
  have hA : (7 : ℚ) / 10 < samplePhotoA.confidence := by norm_num [samplePhotoA]
  have hB : (7 : ℚ) / 10 < samplePhotoB.confidence := by norm_num [samplePhotoB]
  rw [RecoverFiles_files]
  simp only [List.map_cons, List.map_nil, recoverEntry_of_gt _ _ hA, recoverEntry_of_gt _ _ hB]
  decide

/-- Claim C3 as amended. Two entries that a call of `RecoverFiles` marks
recovered (confidence above 0.7) are both flagged recovered, and their
recoveryPath values are equal exactly when their fileName values are equal: the
destination is outputPath, a backslash and the file name, with no suffix added
on a collision. -/
theorem C3_destinations_differ_iff_names_differ (files : List RecoveryResult)
    (outputPath : String) (t : ProgressTracker) (i j : Nat) (fi fj gi gj : RecoveryResult)
    (hi : files[i]? = some fi) (hj : files[j]? = some fj)
    (hci : 7 / 10 < fi.confidence) (hcj : 7 / 10 < fj.confidence)
    (hgi : (RecoverFiles files outputPath t).2.1[i]? = some gi)
    (hgj : (RecoverFiles files outputPath t).2.1[j]? = some gj) :
    gi.isRecovered = true ∧ gj.isRecovered = true ∧
      gi.recoveryPath = outputPath ++ "\\" ++ fi.fileName ∧
      gj.recoveryPath = outputPath ++ "\\" ++ fj.fileName ∧
      (gi.recoveryPath = gj.recoveryPath ↔ fi.fileName = fj.fileName) := by
  rw [RecoverFiles_getElem_opt, hi, Option.map_some', recoverEntry_of_gt _ _ hci] at hgi
  rw [RecoverFiles_getElem_opt, hj, Option.map_some', recoverEntry_of_gt _ _ hcj] at hgj
  injection hgi with hgi
  injection hgj with hgj
  subst hgi
  subst hgj
  refine ⟨rfl, rfl, rfl, rfl, ?_⟩
  exact string_append_left_cancel _ _ _

/-- Witness for the amended C3: in the batch photo.jpg, notes.docx, song.mp3 the
first and the third entry are recovered into `D:\out` under different names. -/
theorem C3_destinations_differ_iff_names_differ_witness :
    [samplePhotoA, sampleWeak, sampleSong][0]? = some samplePhotoA ∧
      [samplePhotoA, sampleWeak, sampleSong][2]? = some sampleSong ∧
      7 / 10 < samplePhotoA.confidence ∧ 7 / 10 < sampleSong.confidence ∧
      (recoverEntry "D:\\out" samplePhotoA).isRecovered = true ∧
      (recoverEntry "D:\\out" sampleSong).isRecovered = true ∧
      (recoverEntry "D:\\out" samplePhotoA).recoveryPath
        = "D:\\out" ++ "\\" ++ samplePhotoA.fileName ∧
      (recoverEntry "D:\\out" sampleSong).recoveryPath
        = "D:\\out" ++ "\\" ++ sampleSong.fileName ∧
      ((recoverEntry "D:\\out" samplePhotoA).recoveryPath
          = (recoverEntry "D:\\out" sampleSong).recoveryPath ↔
        samplePhotoA.fileName = sampleSong.fileName) :=
  have hA : (7 : ℚ) / 10 < samplePhotoA.confidence := by norm_num [samplePhotoA]
  have hS : (7 : ℚ) / 10 < sampleSong.confidence := by norm_num [sampleSong]
  ⟨rfl, rfl, hA, hS,
    C3_destinations_differ_iff_names_differ [samplePhotoA, sampleWeak, sampleSong] "D:\\out"
      ProgressTracker.fresh 0 2 samplePhotoA sampleSong
      (recoverEntry "D:\\out" samplePhotoA) (recoverEntry "D:\\out" sampleSong)
      rfl rfl hA hS (by rw [RecoverFiles_getElem_opt]; rfl) (by rw [RecoverFiles_getElem_opt]; rfl)⟩

/-- Counterexample to C4: `photo.jpg` is recovered into `D:\first`; a second
call on the resulting list with the output path `E:\second` finds the entry
already flagged recovered and still replaces its recoveryPath. -/
theorem C4_second_call_overwrites_destination :
    (RecoverFiles [samplePhotoA] "D:\\first" ProgressTracker.fresh).2.1.map
        (fun r => (r.isRecovered, r.recoveryPath)) = [(true, "D:\\first\\photo.jpg")] ∧
      (RecoverFiles (RecoverFiles [samplePhotoA] "D:\\first" ProgressTracker.fresh).2.1
          "E:\\second"
          (RecoverFiles [samplePhotoA] "D:\\first" ProgressTracker.fresh).2.2).2.1.map
        (fun r => (r.isRecovered, r.recoveryPath)) = [(true, "E:\\second\\photo.jpg")] := by
  have hA : (7 : ℚ) / 10 < samplePhotoA.confidence := by norm_num [samplePhotoA]
  have hA2 : ∀ p : String,
      (7 : ℚ) / 10 < ({ samplePhotoA with isRecovered := true, recoveryPath := p }).confidence := by
    intro p; norm_num [samplePhotoA]
  simp only [RecoverFiles_files, List.map_cons, List.map_nil, recoverEntry_of_gt _ _ hA,
    recoverEntry_of_gt _ _ (hA2 _)]
  decide

/-- Claim C4 as amended. An entry that is flagged recovered before a call of
`RecoverFiles` is still flagged recovered afterwards; its recoveryPath is kept
when its confidence is not above 0.7 and is otherwise replaced by outputPath, a
backslash and the file name: the call has no test of isRecovered. -/
theorem C4_recovered_flag_kept_destination_rewritten (files : List RecoveryResult)
    (outputPath : String) (t : ProgressTracker) (i : Nat) (f g : RecoveryResult)
    (hf : files[i]? = some f) (hrec : f.isRecovered = true)
    (hg : (RecoverFiles files outputPath t).2.1[i]? = some g) :
    g.isRecovered = true ∧
      g.recoveryPath =
        if 7 / 10 < f.confidence then outputPath ++ "\\" ++ f.fileName else f.recoveryPath := by
  rw [RecoverFiles_getElem_opt, hf, Option.map_some'] at hg
  injection hg with hg
  subst hg
  by_cases hc : 7 / 10 < f.confidence
  · rw [recoverEntry_of_gt _ _ hc, if_pos hc]
    exact ⟨rfl, rfl⟩
  · rw [recoverEntry_of_le _ _ hc, if_neg hc]
    exact ⟨hrec, rfl⟩

/-- Witness for the amended C4: the entry recovered earlier into `D:\first` is
passed again with the output path `E:\second`. -/
theorem C4_recovered_flag_kept_destination_rewritten_witness :
    [sampleWeak, sampleDone][1]? = some sampleDone ∧ sampleDone.isRecovered = true ∧
      (recoverEntry "E:\\second" sampleDone).isRecovered = true ∧
      (recoverEntry "E:\\second" sampleDone).recoveryPath =
        if 7 / 10 < sampleDone.confidence then "E:\\second" ++ "\\" ++ sampleDone.fileName
        else sampleDone.recoveryPath :=
  ⟨rfl, rfl,
    C4_recovered_flag_kept_destination_rewritten [sampleWeak, sampleDone] "E:\\second"
      ProgressTracker.fresh 1 sampleDone (recoverEntry "E:\\second" sampleDone) rfl rfl
      (by rw [RecoverFiles_getElem_opt]; rfl)⟩

/-- Claim C5. `RecoverFiles` keeps the length of the list and, at every index,
the fields fileName, originalPath, fileSize, dateModified and confidence; only
isRecovered and recoveryPath can differ from the input. -/
theorem C5_recover_files_frame (files : List RecoveryResult) (outputPath : String)
    (t : ProgressTracker) :
    (RecoverFiles files outputPath t).2.1.length = files.length ∧
      ∀ i : Nat, ((RecoverFiles files outputPath t).2.1[i]?).map frameOf =
        (files[i]?).map frameOf := by
  have hframe : ∀ f : RecoveryResult, frameOf (recoverEntry outputPath f) = frameOf f := by
    intro f
    by_cases hc : 7 / 10 < f.confidence
    · rw [recoverEntry_of_gt _ _ hc]; rfl
    · rw [recoverEntry_of_le _ _ hc]
  refine ⟨by rw [RecoverFiles_files, List.length_map], ?_⟩
  intro i
  rw [RecoverFiles_getElem_opt]
  cases files[i]? with
  | none => rfl
  | some f => simp [hframe]

/-! ## Claims about determinism, session ids and progress -/

/-- Claim C6. Two runs of `ScanForFiles` with the same drive path, mode and file
type but different clocks (and trackers) return lists of the same length that
agree index by index on fileName, originalPath, fileSize, isRecovered and
confidence; and the confidence found at index k is the same for every drive
path, mode, file type, clock and tracker. -/
theorem C6_scan_is_deterministic (drivePath : String) (mode : RecoveryMode)
    (fileType : FileType) (clock1 clock2 : Nat → Nat) (t1 t2 : ProgressTracker) :
    (ScanForFiles drivePath mode fileType clock1 t1).1.length =
        (ScanForFiles drivePath mode fileType clock2 t2).1.length ∧
      (∀ k : Nat, ((ScanForFiles drivePath mode fileType clock1 t1).1[k]?).map evidenceOf =
        ((ScanForFiles drivePath mode fileType clock2 t2).1[k]?).map evidenceOf) ∧
      (∀ (drivePath2 : String) (mode2 : RecoveryMode) (fileType2 : FileType) (k : Nat),
        ((ScanForFiles drivePath mode fileType clock1 t1).1[k]?).map (fun r => r.confidence) =
        ((ScanForFiles drivePath2 mode2 fileType2 clock2 t2).1[k]?).map
          (fun r => r.confidence)) := by
  refine ⟨?_, ?_, ?_⟩
  · rw [ScanForFiles_results, ScanForFiles_results]; rfl
  · intro k
    rw [ScanForFiles_results, ScanForFiles_results, ← List.getElem?_map, ← List.getElem?_map]
    rfl
  · intro drivePath2 mode2 fileType2 k
    rw [ScanForFiles_results, ScanForFiles_results, ← List.getElem?_map, ← List.getElem?_map]
    rfl

/-- Claim C7 (defect in the code). The session id keeps the clock reading only
down to the millisecond: at every whole second s, the call made at that instant
and the call made one clock tick later (100 ns later on a clock with 10^7 ticks
per second, 1 ns later on a clock with 10^9) return the same session id,
whatever the local time formatting. -/
theorem C7_session_id_repeats_within_millisecond (localStamp : Nat → String) (s : Nat) :
    GenerateSessionId localStamp 10000000 (s * 10000000) =
        GenerateSessionId localStamp 10000000 (s * 10000000 + 1) ∧
      GenerateSessionId localStamp 1000000000 (s * 1000000000) =
        GenerateSessionId localStamp 1000000000 (s * 1000000000 + 1) := by
  unfold GenerateSessionId
  have h1 : (s * 10000000 + 1) / 10000000 = s * 10000000 / 10000000 := by omega
  have h2 : (s * 10000000 + 1) * 1000 / 10000000 = s * 10000000 * 1000 / 10000000 := by omega
  have h3 : (s * 1000000000 + 1) / 1000000000 = s * 1000000000 / 1000000000 := by omega
  have h4 : (s * 1000000000 + 1) * 1000 / 1000000000 =
      s * 1000000000 * 1000 / 1000000000 := by omega
  simp only [h1, h2, h3, h4, and_self]

/-- Claim C8. The percentages `ScanForFiles` passes to `UpdateProgress` are
0, 5, 10, ..., 100 for every argument triple, clock and tracker: the sequence is
non-decreasing, lies in 0..100, starts with 0 and ends with 100. -/
theorem C8_scan_progress_sequence (drivePath : String) (mode : RecoveryMode)
    (fileType : FileType) (clock : Nat → Nat) (t : ProgressTracker) :
    passedPercentages t (ScanForFiles drivePath mode fileType clock t).2 =
        [0, 5, 10, 15, 20, 25, 30, 35, 40, 45, 50, 55, 60, 65, 70, 75, 80, 85, 90, 95, 100] ∧
      (passedPercentages t (ScanForFiles drivePath mode fileType clock t).2).Pairwise
        (fun a b => a ≤ b) ∧
      (∀ p ∈ passedPercentages t (ScanForFiles drivePath mode fileType clock t).2,
        0 ≤ p ∧ p ≤ 100) ∧
      (passedPercentages t (ScanForFiles drivePath mode fileType clock t).2).head? = some 0 ∧
      (passedPercentages t (ScanForFiles drivePath mode fileType clock t).2).getLast? =
        some 100 := by
  have h : passedPercentages t (ScanForFiles drivePath mode fileType clock t).2 =
      [0, 5, 10, 15, 20, 25, 30, 35, 40, 45, 50, 55, 60, 65, 70, 75, 80, 85, 90, 95, 100] := by
    unfold passedPercentages
    rw [ScanForFiles_calls]
    simp [List.range, List.range.loop]
  rw [h]
  decide

theorem sizeToInt_of_lt (x : Nat) (h : x < 2 ^ 31) : sizeToInt x = (x : Int) := by
  unfold sizeToInt
  norm_num at h ⊢
  omega

theorem recoverPercent_eq (n i : Nat) (hi : i < n) (hsz : 100 * n < 2 ^ 64) :
    recoverPercent n i = ((100 * i / n : Nat) : Int) := by
  unfold recoverPercent
  have h1 : i * 100 < 2 ^ 64 := by nlinarith
  have h2 : i * 100 / n < 100 := by
    rw [Nat.div_lt_iff_lt_mul (by omega)]
    nlinarith
  rw [Nat.mod_eq_of_lt h1, sizeToInt_of_lt _ (by norm_num; omega), Nat.mul_comm]

theorem passedPercentages_RecoverFiles (files : List RecoveryResult) (outputPath : String)
    (t : ProgressTracker) :
    passedPercentages t (RecoverFiles files outputPath t).2.2 =
      (List.range files.length).map (recoverPercent files.length) := by
  unfold passedPercentages
  rw [List.map_drop, RecoverFiles_percentages]
  have hlen : t.calls.length = (t.calls.map Prod.fst).length := by simp
  rw [hlen, List.drop_left]

theorem recoverPercent_range (n i : Nat) (hi : i < n) :
    0 ≤ recoverPercent n i ∧ recoverPercent n i ≤ 100 := by
  have hmod : i * 100 % 2 ^ 64 ≤ i * 100 := Nat.mod_le _ _
  have hx : i * 100 % 2 ^ 64 / n < 100 := by
    rw [Nat.div_lt_iff_lt_mul (by omega)]
    nlinarith
  unfold recoverPercent
  rw [sizeToInt_of_lt _ (lt_trans hx (by norm_num))]
  constructor
  · exact Int.ofNat_nonneg _
  · exact_mod_cast le_of_lt hx

theorem RecoverFiles_calls_in_range (files : List RecoveryResult) (outputPath : String)
    (t : ProgressTracker) :
    ∀ p ∈ passedPercentages t (RecoverFiles files outputPath t).2.2,
      0 ≤ p ∧ p ≤ 100 ∧ barThrows p = false := by
  intro p hp
  rw [passedPercentages_RecoverFiles, List.mem_map] at hp
  obtain ⟨i, hi, rfl⟩ := hp
  obtain ⟨h1, h2⟩ := recoverPercent_range files.length i (List.mem_range.mp hi)
  exact ⟨h1, h2, barThrows_of_range _ (by omega) (by omega)⟩

theorem ScanForFiles_calls_in_range (drivePath : String) (mode : RecoveryMode)
    (fileType : FileType) (clock : Nat → Nat) (t : ProgressTracker) :
    ∀ p ∈ passedPercentages t (ScanForFiles drivePath mode fileType clock t).2,
      0 ≤ p ∧ p ≤ 100 ∧ barThrows p = false := by
  have h : passedPercentages t (ScanForFiles drivePath mode fileType clock t).2 =
      [0, 5, 10, 15, 20, 25, 30, 35, 40, 45, 50, 55, 60, 65, 70, 75, 80, 85, 90, 95, 100] := by
    unfold passedPercentages
    rw [ScanForFiles_calls]
    simp [List.range, List.range.loop]
  rw [h]
  decide

/-- Claim C9. For a non-empty list of n files with 100 * n inside the range of
a 64-bit `size_t`, the percentages `RecoverFiles` passes to `UpdateProgress`
are floor(100 * i / n) for i = 0, ..., n - 1 in this order; the sequence is
non-decreasing, starts with 0 and every value lies in 0..99. -/
theorem C9_recover_progress_sequence (files : List RecoveryResult) (outputPath : String)
    (t : ProgressTracker) (hne : files ≠ []) (hsz : 100 * files.length < 2 ^ 64) :
    passedPercentages t (RecoverFiles files outputPath t).2.2 =
        (List.range files.length).map (fun i => ((100 * i / files.length : Nat) : Int)) ∧
      (passedPercentages t (RecoverFiles files outputPath t).2.2).Pairwise (fun a b => a ≤ b) ∧
      (passedPercentages t (RecoverFiles files outputPath t).2.2).head? = some 0 ∧
      (∀ p ∈ passedPercentages t (RecoverFiles files outputPath t).2.2, 0 ≤ p ∧ p ≤ 99) := by
  have hpos : 0 < files.length := List.length_pos.mpr hne
  have h : passedPercentages t (RecoverFiles files outputPath t).2.2 =
      (List.range files.length).map (fun i => ((100 * i / files.length : Nat) : Int)) := by
    rw [passedPercentages_RecoverFiles]
    apply List.map_congr_left
    intro i hi
    exact recoverPercent_eq _ _ (List.mem_range.mp hi) hsz
  rw [h]
  refine ⟨rfl, ?_, ?_, ?_⟩
  · rw [List.pairwise_map]
    refine List.Pairwise.imp ?_ (List.pairwise_lt_range files.length)
    intro a b hab
    exact Int.ofNat_le.mpr (Nat.div_le_div_right (by omega))
  · obtain ⟨m, hm⟩ : ∃ m, files.length = m + 1 := ⟨files.length - 1, by omega⟩
    rw [hm, List.range_succ_eq_map]
    simp
  · intro p hp
    rw [List.mem_map] at hp
    obtain ⟨i, hi, rfl⟩ := hp
    have hi2 : i < files.length := List.mem_range.mp hi
    have h2 : 100 * i / files.length < 100 := by
      rw [Nat.div_lt_iff_lt_mul hpos]
      nlinarith
    constructor
    · exact Int.ofNat_nonneg _
    · have : 100 * i / files.length ≤ 99 := by omega
      exact_mod_cast this

/-- Witness for C9: three files give the percentages 0, 33 and 66. -/
theorem C9_recover_progress_sequence_witness :
    [samplePhotoA, sampleWeak, sampleSong] ≠ [] ∧
      100 * [samplePhotoA, sampleWeak, sampleSong].length < 2 ^ 64 ∧
      passedPercentages ProgressTracker.fresh
        (RecoverFiles [samplePhotoA, sampleWeak, sampleSong] "D:\\out" ProgressTracker.fresh).2.2 =
        [0, 33, 66] :=
  ⟨by decide, by decide,
    (C9_recover_progress_sequence [samplePhotoA, sampleWeak, sampleSong] "D:\\out"
      ProgressTracker.fresh (by decide) (by decide)).1.trans (by decide)⟩

/-! ## Coalescing of progress updates -/

theorem runUpdates_cons (t : ProgressTracker) (q : Int × String) (ps : List (Int × String)) :
    runUpdates t (q :: ps) = runUpdates (UpdateProgress t q.1 q.2) ps := rfl

theorem emittedPercentages_UpdateProgress (t : ProgressTracker) (p : Int) (op : String)
    (h1 : -1 ≤ p) (h2 : p ≤ 101) :
    emittedPercentages t (UpdateProgress t p op) = if p ≠ t.lastPercentage then [p] else [] := by
  unfold emittedPercentages
  rw [UpdateProgress_emitted t p op h1 h2]
  by_cases h : p = t.lastPercentage
  · simp [h]
  · simp [h]

theorem runUpdates_emitted_of_le :
    ∀ (ps : List (Int × String)) (t : ProgressTracker),
      (ps.map Prod.fst).Pairwise (fun a b => a ≤ b) →
      (∀ q ∈ ps, -1 ≤ q.1 ∧ q.1 ≤ 101) →
      (∀ q ∈ ps, t.lastPercentage ≤ q.1) →
      ∃ fresh : List ProgressLine,
        (runUpdates t ps).emitted = t.emitted ++ fresh ∧
        (fresh.map (fun l => l.percentage)).Pairwise (fun a b => a < b) ∧
        ∀ l ∈ fresh, t.lastPercentage < l.percentage ∧ ∃ q ∈ ps, q.1 = l.percentage := by
  intro ps
  induction ps with
  | nil =>
    intro t _ _ _
    exact ⟨[], by simp [runUpdates], by simp, by simp⟩
  | cons q ps ih =>
    intro t hmono hin hlow
    rw [List.map_cons, List.pairwise_cons] at hmono
    obtain ⟨hq, hrest⟩ := hmono
    obtain ⟨hq1, hq2⟩ := hin q (List.mem_cons_self q ps)
    have hin2 : ∀ r ∈ ps, -1 ≤ r.1 ∧ r.1 ≤ 101 := fun r hr => hin r (List.mem_cons_of_mem q hr)
    have hlast : (UpdateProgress t q.1 q.2).lastPercentage = q.1 :=
      UpdateProgress_lastPercentage t q.1 q.2 hq1 hq2
    have hlow2 : ∀ r ∈ ps, (UpdateProgress t q.1 q.2).lastPercentage ≤ r.1 := by
      intro r hr
      rw [hlast]
      exact hq r.1 (List.mem_map_of_mem Prod.fst hr)
    obtain ⟨fresh, hem, hsorted, hall⟩ := ih (UpdateProgress t q.1 q.2) hrest hin2 hlow2
    have hqlow : t.lastPercentage ≤ q.1 := hlow q (List.mem_cons_self q ps)
    rw [runUpdates_cons, hem, UpdateProgress_emitted t q.1 q.2 hq1 hq2]
    by_cases hne : q.1 = t.lastPercentage
    · refine ⟨fresh, by simp [hne], hsorted, ?_⟩
      intro l hl
      obtain ⟨h1, r, hr, h2⟩ := hall l hl
      rw [hlast, hne] at h1
      exact ⟨h1, r, List.mem_cons_of_mem q hr, h2⟩
    · refine ⟨{ equalsCount := Int.tdiv q.1 2, spacesCount := 50 - Int.tdiv q.1 2,
                percentage := q.1, operation := q.2 } :: fresh, by simp [hne], ?_, ?_⟩
      · rw [List.map_cons, List.pairwise_cons]
        refine ⟨?_, hsorted⟩
        intro a ha
        rw [List.mem_map] at ha
        obtain ⟨l, hl, rfl⟩ := ha
        have h1 := (hall l hl).1
        rw [hlast] at h1
        exact h1
      · intro l hl
        rw [List.mem_cons] at hl
        rcases hl with rfl | hl
        · exact ⟨lt_of_le_of_ne hqlow (Ne.symm hne), q, List.mem_cons_self q ps, rfl⟩
        · obtain ⟨h1, r, hr, h2⟩ := hall l hl
          rw [hlast] at h1
          exact ⟨lt_of_le_of_lt hqlow h1, r, List.mem_cons_of_mem q hr, h2⟩

theorem runUpdates_emitted (ps : List (Int × String)) (t : ProgressTracker)
    (hmono : (ps.map Prod.fst).Pairwise (fun a b => a ≤ b))
    (hin : ∀ q ∈ ps, -1 ≤ q.1 ∧ q.1 ≤ 101) :
    (emittedPercentages t (runUpdates t ps)).Pairwise (fun a b => a < b) ∧
      ∀ v ∈ emittedPercentages t (runUpdates t ps), ∃ q ∈ ps, q.1 = v := by
  cases ps with
  | nil => simp [runUpdates, emittedPercentages]
  | cons q ps =>
    rw [List.map_cons, List.pairwise_cons] at hmono
    obtain ⟨hq, hrest⟩ := hmono
    obtain ⟨hq1, hq2⟩ := hin q (List.mem_cons_self q ps)
    have hin2 : ∀ r ∈ ps, -1 ≤ r.1 ∧ r.1 ≤ 101 := fun r hr => hin r (List.mem_cons_of_mem q hr)
    have hlast : (UpdateProgress t q.1 q.2).lastPercentage = q.1 :=
      UpdateProgress_lastPercentage t q.1 q.2 hq1 hq2
    have hlow2 : ∀ r ∈ ps, (UpdateProgress t q.1 q.2).lastPercentage ≤ r.1 := by
      intro r hr
      rw [hlast]
      exact hq r.1 (List.mem_map_of_mem Prod.fst hr)
    obtain ⟨fresh, hem, hsorted, hall⟩ :=
      runUpdates_emitted_of_le ps (UpdateProgress t q.1 q.2) hrest hin2 hlow2
    unfold emittedPercentages
    rw [runUpdates_cons, hem, UpdateProgress_emitted t q.1 q.2 hq1 hq2]
    by_cases hne : q.1 = t.lastPercentage
    · simp only [hne, ne_eq, not_true_eq_false, if_false, List.drop_left]
      refine ⟨hsorted, ?_⟩
      intro v hv
      rw [List.mem_map] at hv
      obtain ⟨l, hl, rfl⟩ := hv
      obtain ⟨_, r, hr, h2⟩ := hall l hl
      exact ⟨r, List.mem_cons_of_mem q hr, h2⟩
    · simp only [hne, ne_eq, not_false_eq_true, if_true, List.append_assoc, List.drop_left,
        List.singleton_append, List.map_cons]
      refine ⟨?_, ?_⟩
      · rw [List.pairwise_cons]
        refine ⟨?_, hsorted⟩
        intro a ha
        rw [List.mem_map] at ha
        obtain ⟨l, hl, rfl⟩ := ha
        have h1 := (hall l hl).1
        rw [hlast] at h1
        exact h1
      · intro v hv
        rw [List.mem_cons] at hv
        rcases hv with rfl | hv
        · exact ⟨q, List.mem_cons_self q ps, rfl⟩
        · rw [List.mem_map] at hv
          obtain ⟨l, hl, rfl⟩ := hv
          obtain ⟨_, r, hr, h2⟩ := hall l hl
          exact ⟨r, List.mem_cons_of_mem q hr, h2⟩

/-- Counterexample to C10: the percentage 102 on a new tracker. It differs from
`lastPercentage` = -1, the bar asks for 50 - 51 = -1 blanks, the call ends
with `std::length_error`, and afterwards `lastPercentage` is still -1 and not
the percentage passed. -/
theorem C10_out_of_range_update_throws :
    UpdateProgressThrows ProgressTracker.fresh 102 = true ∧
      (UpdateProgress ProgressTracker.fresh 102 "Scanning sectors...").lastPercentage = -1 ∧
      (UpdateProgress ProgressTracker.fresh 102 "Scanning sectors...").emitted = [] ∧
      (50 - Int.tdiv 102 2 = -1) := by
  decide

/-- Claim C10 as amended. For a percentage in -1..101, in particular in
0..100, `UpdateProgress` does not throw, writes an update exactly when the
percentage differs from `lastPercentage` (which is -1 in a new tracker), and
afterwards `lastPercentage` is the percentage passed. For a percentage below
-1 or above 101 that differs from `lastPercentage` the call throws, writes no
complete update and leaves `lastPercentage` as it was. Hence, for every
non-decreasing sequence of calls with percentages in 0..100, started from any
tracker, no call throws, no percentage value is written twice and at most 101
updates are written. -/
theorem C10_updates_coalesced_in_range (t : ProgressTracker) (ps : List (Int × String))
    (hmono : (ps.map Prod.fst).Pairwise (fun a b => a ≤ b))
    (hrange : ∀ q ∈ ps, 0 ≤ q.1 ∧ q.1 ≤ 100) :
    (∀ (tr : ProgressTracker) (p : Int) (op : String), -1 ≤ p → p ≤ 101 →
        UpdateProgressThrows tr p = false ∧
        emittedPercentages tr (UpdateProgress tr p op) =
          (if p ≠ tr.lastPercentage then [p] else []) ∧
        (UpdateProgress tr p op).lastPercentage = p) ∧
      (∀ (tr : ProgressTracker) (p : Int) (op : String), (p ≤ -2 ∨ 102 ≤ p) →
        p ≠ tr.lastPercentage →
        UpdateProgressThrows tr p = true ∧
        emittedPercentages tr (UpdateProgress tr p op) = [] ∧
        (UpdateProgress tr p op).lastPercentage = tr.lastPercentage) ∧
      (∀ (tr : ProgressTracker) (op : String),
        UpdateProgressThrows tr tr.lastPercentage = false ∧
        emittedPercentages tr (UpdateProgress tr tr.lastPercentage op) = [] ∧
        (UpdateProgress tr tr.lastPercentage op).lastPercentage = tr.lastPercentage) ∧
      ProgressTracker.fresh.lastPercentage = -1 ∧
      (∀ (tr : ProgressTracker), ∀ q ∈ ps, UpdateProgressThrows tr q.1 = false) ∧
      (∀ v : Int, (emittedPercentages t (runUpdates t ps)).count v ≤ 1) ∧
      (emittedPercentages t (runUpdates t ps)).length ≤ 101 := by
  have hin : ∀ q ∈ ps, -1 ≤ q.1 ∧ q.1 ≤ 101 := by
    intro q hq
    obtain ⟨h1, h2⟩ := hrange q hq
    constructor <;> omega
  obtain ⟨hsorted, hmem⟩ := runUpdates_emitted ps t hmono hin
  have hnodup : (emittedPercentages t (runUpdates t ps)).Nodup :=
    List.Pairwise.imp (fun h => ne_of_lt h) hsorted
  have hno : ∀ (tr : ProgressTracker) (p : Int), -1 ≤ p → p ≤ 101 →
      UpdateProgressThrows tr p = false := by
    intro tr p h1 h2
    unfold UpdateProgressThrows
    rw [barThrows_of_range p h1 h2, Bool.and_false]
  refine ⟨?_, ?_, ?_, rfl, ?_, ?_, ?_⟩
  · intro tr p op h1 h2
    exact ⟨hno tr p h1 h2, emittedPercentages_UpdateProgress tr p op h1 h2,
      UpdateProgress_lastPercentage tr p op h1 h2⟩
  · intro tr p op hout hne
    have hthrows : UpdateProgressThrows tr p = true := by
      unfold UpdateProgressThrows
      rw [barThrows_of_outside p hout, Bool.and_true, decide_eq_true_iff]
      exact hne
    refine ⟨hthrows, ?_, ?_⟩
    · rw [UpdateProgress_of_throws tr p op hthrows]
      simp [emittedPercentages]
    · rw [UpdateProgress_of_throws tr p op hthrows]
  · intro tr op
    refine ⟨by simp [UpdateProgressThrows], ?_, ?_⟩
    · simp [emittedPercentages, UpdateProgress]
    · simp [UpdateProgress]
  · intro tr q hq
    exact hno tr q.1 (hin q hq).1 (hin q hq).2
  · exact List.nodup_iff_count_le_one.mp hnodup
  · have hsub : (emittedPercentages t (runUpdates t ps)).toFinset ⊆ Finset.Icc (0 : Int) 100 := by
      intro v hv
      rw [List.mem_toFinset] at hv
      obtain ⟨q, hq, rfl⟩ := hmem v hv
      exact Finset.mem_Icc.mpr (hrange q hq)
    have hcard := Finset.card_le_card hsub
    rw [List.toFinset_card_of_nodup hnodup, Int.card_Icc] at hcard
    simpa using hcard

/-- Witness for the amended C10: seven calls with the percentages 0, 0, 5, 5, 5,
100, 100 on a new tracker write the three updates 0, 5 and 100. -/
theorem C10_updates_coalesced_in_range_witness :
    ([((0 : Int), "a"), (0, "a"), (5, "b"), (5, "b"), (5, "c"), (100, "d"), (100, "d")].map
        Prod.fst).Pairwise (fun a b => a ≤ b) ∧
      (∀ q ∈ [((0 : Int), "a"), (0, "a"), (5, "b"), (5, "b"), (5, "c"), (100, "d"), (100, "d")],
        0 ≤ q.1 ∧ q.1 ≤ 100) ∧
      emittedPercentages ProgressTracker.fresh
        (runUpdates ProgressTracker.fresh
          [((0 : Int), "a"), (0, "a"), (5, "b"), (5, "b"), (5, "c"), (100, "d"), (100, "d")]) =
        [0, 5, 100] ∧
      (emittedPercentages ProgressTracker.fresh
        (runUpdates ProgressTracker.fresh
          [((0 : Int), "a"), (0, "a"), (5, "b"), (5, "b"), (5, "c"), (100, "d"),
            (100, "d")])).length ≤ 101 :=
  ⟨by decide, by decide, by decide,
    (C10_updates_coalesced_in_range ProgressTracker.fresh
      [((0 : Int), "a"), (0, "a"), (5, "b"), (5, "b"), (5, "c"), (100, "d"), (100, "d")]
      (by decide) (by decide)).2.2.2.2.2.2⟩

/-! ## Claims about file types, destinations and the scan-then-recover scenario -/

theorem last_three_of_append_eq (a b c d : String) (h : a ++ b = c ++ d)
    (hb : 3 ≤ b.data.length) (hd : 3 ≤ d.data.length) :
    b.data.reverse.take 3 = d.data.reverse.take 3 := by
  have h2 := congrArg (fun s => (String.data s).reverse.take 3) h
  simp only [String.data_append, List.reverse_append] at h2
  rw [List.take_append_of_le_length (by simpa using hb),
    List.take_append_of_le_length (by simpa using hd)] at h2
  exact h2

theorem scan_fileName (drivePath : String) (mode : RecoveryMode) (fileType : FileType)
    (clock : Nat → Nat) (t : ProgressTracker) (r : RecoveryResult)
    (hr : r ∈ (ScanForFiles drivePath mode fileType clock t).1) :
    ∃ k : Nat, r = scanCandidate drivePath fileType clock k := by
  rw [ScanForFiles_results] at hr
  simp only [List.mem_cons, List.mem_singleton, List.not_mem_nil, or_false] at hr
  rcases hr with h | h | h | h | h
  · exact ⟨1, h⟩
  · exact ⟨2, h⟩
  · exact ⟨3, h⟩
  · exact ⟨4, h⟩
  · exact ⟨5, h⟩

/-- Claim C11. For every drive path, mode and file type filter, the fileName of
every result of `ScanForFiles` ends with the extension `GetFileExtension`
gives for the filter, and it ends with the extension of no other file type: no
result of another type is returned. -/
theorem C11_results_have_requested_type (drivePath : String) (mode : RecoveryMode)
    (fileType : FileType) (clock : Nat → Nat) (t : ProgressTracker) :
    ∀ r ∈ (ScanForFiles drivePath mode fileType clock t).1,
      (∃ stem : String, r.fileName = stem ++ GetFileExtension fileType) ∧
      ∀ other : FileType, other ≠ fileType →
        ¬ ∃ stem : String, r.fileName = stem ++ GetFileExtension other := by
  intro r hr
  obtain ⟨k, rfl⟩ := scan_fileName drivePath mode fileType clock t r hr
  refine ⟨⟨"recovered_file_" ++ toString k, rfl⟩, ?_⟩
  intro other hne hex
  obtain ⟨stem, hstem⟩ := hex
  have key : ∀ a b : FileType, a ≠ b →
      3 ≤ (GetFileExtension a).data.length ∧ 3 ≤ (GetFileExtension b).data.length ∧
      (GetFileExtension a).data.reverse.take 3 ≠ (GetFileExtension b).data.reverse.take 3 := by
    intro a b
    cases a <;> cases b <;> decide
  obtain ⟨h1, h2, h3⟩ := key fileType other (Ne.symm hne)
  exact h3 (last_three_of_append_eq _ _ _ _ hstem h1 h2)

/-- Witness for C11: the first photo candidate of drive `C:` is named
`recovered_file_1.jpg`. -/
theorem C11_results_have_requested_type_witness :
    scanCandidate "C:" FileType.PHOTO (fun _ => 0) 1 ∈
        (ScanForFiles "C:" RecoveryMode.QUICK_SCAN FileType.PHOTO (fun _ => 0)
          ProgressTracker.fresh).1 ∧
      (scanCandidate "C:" FileType.PHOTO (fun _ => 0) 1).fileName = "recovered_file_1.jpg" ∧
      (∃ stem : String, (scanCandidate "C:" FileType.PHOTO (fun _ => 0) 1).fileName =
        stem ++ GetFileExtension FileType.PHOTO) ∧
      ¬ ∃ stem : String, (scanCandidate "C:" FileType.PHOTO (fun _ => 0) 1).fileName =
        stem ++ GetFileExtension FileType.VIDEO :=
  have hmem : scanCandidate "C:" FileType.PHOTO (fun _ => 0) 1 ∈
      (ScanForFiles "C:" RecoveryMode.QUICK_SCAN FileType.PHOTO (fun _ => 0)
        ProgressTracker.fresh).1 := by
    rw [ScanForFiles_results]; simp
  ⟨hmem, by decide,
    (C11_results_have_requested_type "C:" RecoveryMode.QUICK_SCAN FileType.PHOTO (fun _ => 0)
      ProgressTracker.fresh _ hmem).1,
    (C11_results_have_requested_type "C:" RecoveryMode.QUICK_SCAN FileType.PHOTO (fun _ => 0)
      ProgressTracker.fresh _ hmem).2 FileType.VIDEO (by decide)⟩

/-- Claim C12. When every entry starts with isRecovered = false and an empty
recoveryPath, then after `RecoverFiles` every entry flagged recovered has the
recoveryPath outputPath, backslash, fileName, and every entry not flagged
recovered still has the empty recoveryPath. -/
theorem C12_destination_present_exactly_on_success (files : List RecoveryResult)
    (outputPath : String) (t : ProgressTracker)
    (hstart : ∀ f ∈ files, f.isRecovered = false ∧ f.recoveryPath = "") :
    ∀ g ∈ (RecoverFiles files outputPath t).2.1,
      (g.isRecovered = true → g.recoveryPath = outputPath ++ "\\" ++ g.fileName) ∧
      (g.isRecovered = false → g.recoveryPath = "") := by
  intro g hg
  rw [RecoverFiles_files, List.mem_map] at hg
  obtain ⟨f, hf, rfl⟩ := hg
  obtain ⟨h1, h2⟩ := hstart f hf
  by_cases hc : 7 / 10 < f.confidence
  · rw [recoverEntry_of_gt _ _ hc]
    exact ⟨fun _ => rfl, fun h => by simp at h⟩
  · rw [recoverEntry_of_le _ _ hc]
    exact ⟨fun h => by rw [h1] at h; simp at h, fun _ => h2⟩

/-- Witness for C12: of photo.jpg (confidence 0.9) and notes.docx (confidence
0.5) the first is recovered to `D:\out\photo.jpg`, the second keeps the empty
path. -/
theorem C12_destination_present_exactly_on_success_witness :
    (∀ f ∈ [samplePhotoA, sampleWeak], f.isRecovered = false ∧ f.recoveryPath = "") ∧
      (RecoverFiles [samplePhotoA, sampleWeak] "D:\\out" ProgressTracker.fresh).2.1.map
        (fun r => (r.isRecovered, r.recoveryPath)) = [(true, "D:\\out\\photo.jpg"), (false, "")] ∧
      ∀ g ∈ (RecoverFiles [samplePhotoA, sampleWeak] "D:\\out" ProgressTracker.fresh).2.1,
        (g.isRecovered = true → g.recoveryPath = "D:\\out" ++ "\\" ++ g.fileName) ∧
        (g.isRecovered = false → g.recoveryPath = "") :=
  have hstart : ∀ f ∈ [samplePhotoA, sampleWeak],
      f.isRecovered = false ∧ f.recoveryPath = "" := by
    intro f hf
    simp only [List.mem_cons, List.mem_singleton, List.not_mem_nil, or_false] at hf
    rcases hf with rfl | rfl <;> exact ⟨rfl, rfl⟩
  have heval : (RecoverFiles [samplePhotoA, sampleWeak] "D:\\out"
      ProgressTracker.fresh).2.1.map (fun r => (r.isRecovered, r.recoveryPath)) =
      [(true, "D:\\out\\photo.jpg"), (false, "")] := by
    have hA : (7 : ℚ) / 10 < samplePhotoA.confidence := by norm_num [samplePhotoA]
    have hW : ¬ (7 : ℚ) / 10 < sampleWeak.confidence := by norm_num [sampleWeak]
    rw [RecoverFiles_files]
    simp only [List.map_cons, List.map_nil, recoverEntry_of_gt _ _ hA,
      recoverEntry_of_le _ _ hW]
    decide
  ⟨hstart, heval,
    C12_destination_present_exactly_on_success [samplePhotoA, sampleWeak] "D:\\out"
      ProgressTracker.fresh hstart⟩

/-- Counterexample to C13: an entry that is flagged recovered on input with an
empty recoveryPath and confidence 0.5 is a recovered entry after the runs with
`D:\a` and with `D:\b`, and its recoveryPath is empty in both: it does not end
with a backslash and the file name. -/
theorem C13_flagged_entry_keeps_input_destination :
    (RecoverFiles [sampleStale] "D:\\a" ProgressTracker.fresh).2.1.map
        (fun r => (r.fileName, r.isRecovered, r.recoveryPath)) = [("notes.docx", true, "")] ∧
      (RecoverFiles [sampleStale] "D:\\b" ProgressTracker.fresh).2.1.map
        (fun r => (r.fileName, r.isRecovered, r.recoveryPath)) = [("notes.docx", true, "")] ∧
      ¬ ∃ stem : String, "" = stem ++ ("\\" ++ "notes.docx") := by
  have hS : ¬ (7 : ℚ) / 10 < sampleStale.confidence := by norm_num [sampleStale]
  refine ⟨?_, ?_, ?_⟩
  · rw [RecoverFiles_files]
    simp only [List.map_cons, List.map_nil, recoverEntry_of_le _ _ hS]
    decide
  · rw [RecoverFiles_files]
    simp only [List.map_cons, List.map_nil, recoverEntry_of_le _ _ hS]
    decide
  · rintro ⟨stem, h⟩
    have h2 := congrArg (fun s => (String.data s).length) h
    simp [String.data_append] at h2

/-- Claim C13 as amended. Two runs of `RecoverFiles` on the same list with the
output paths A and B give the same return value and the same isRecovered flag
at every index. An entry the call marks recovered (confidence above 0.7) gets
the recoveryPath A, backslash, fileName in the one run and B, backslash,
fileName in the other; every other entry keeps its input recoveryPath in both
runs. -/
theorem C13_runs_agree_up_to_output_path (files : List RecoveryResult) (pathA pathB : String)
    (tA tB : ProgressTracker) :
    (RecoverFiles files pathA tA).1 = (RecoverFiles files pathB tB).1 ∧
      (∀ i : Nat, ((RecoverFiles files pathA tA).2.1[i]?).map (fun r => r.isRecovered) =
        ((RecoverFiles files pathB tB).2.1[i]?).map (fun r => r.isRecovered)) ∧
      (∀ (i : Nat) (f : RecoveryResult), files[i]? = some f →
        (7 / 10 < f.confidence →
          ((RecoverFiles files pathA tA).2.1[i]?).map (fun r => (r.isRecovered, r.recoveryPath))
            = some (true, pathA ++ "\\" ++ f.fileName) ∧
          ((RecoverFiles files pathB tB).2.1[i]?).map (fun r => (r.isRecovered, r.recoveryPath))
            = some (true, pathB ++ "\\" ++ f.fileName)) ∧
        (¬ 7 / 10 < f.confidence →
          ((RecoverFiles files pathA tA).2.1[i]?).map (fun r => (r.isRecovered, r.recoveryPath))
            = some (f.isRecovered, f.recoveryPath) ∧
          ((RecoverFiles files pathB tB).2.1[i]?).map (fun r => (r.isRecovered, r.recoveryPath))
            = some (f.isRecovered, f.recoveryPath))) := by
  refine ⟨by rw [RecoverFiles_value, RecoverFiles_value], ?_, ?_⟩
  · intro i
    rw [RecoverFiles_getElem_opt, RecoverFiles_getElem_opt]
    cases files[i]? with
    | none => rfl
    | some f =>
      by_cases hc : 7 / 10 < f.confidence
      · simp [recoverEntry_of_gt _ _ hc]
      · simp [recoverEntry_of_le _ _ hc]
  · intro i f hf
    rw [RecoverFiles_getElem_opt, RecoverFiles_getElem_opt, hf]
    constructor
    · intro hc
      simp [recoverEntry_of_gt _ _ hc]
    · intro hc
      simp [recoverEntry_of_le _ _ hc]

theorem scanCandidate_confidence_gt (drivePath : String) (fileType : FileType)
    (clock : Nat → Nat) (k : Nat) :
    7 / 10 < (scanCandidate drivePath fileType clock k).confidence := by
  have hk : (0 : ℚ) ≤ ((20 * k : Nat) : ℚ) := Nat.cast_nonneg _
  simp only [scanCandidate]
  linarith [div_nonneg hk (by norm_num : (0 : ℚ) ≤ 200)]

/-- Claim C14. Every candidate a QUICK_SCAN returns has confidence at least
0.85 and isRecovered = false; passing the whole list to `RecoverFiles` flags
every candidate recovered, so the number of recovered entries equals the
number of candidates found, and the call returns true. -/
theorem C14_scan_then_recover_all (drivePath : String) (fileType : FileType)
    (outputPath : String) (clock : Nat → Nat) (t t2 : ProgressTracker) :
    (∀ r ∈ (ScanForFiles drivePath RecoveryMode.QUICK_SCAN fileType clock t).1,
        85 / 100 ≤ r.confidence ∧ r.isRecovered = false) ∧
      (∀ g ∈ (RecoverFiles (ScanForFiles drivePath RecoveryMode.QUICK_SCAN fileType clock t).1
          outputPath t2).2.1, g.isRecovered = true) ∧
      (RecoverFiles (ScanForFiles drivePath RecoveryMode.QUICK_SCAN fileType clock t).1
          outputPath t2).2.1.countP (fun g => g.isRecovered) =
        (ScanForFiles drivePath RecoveryMode.QUICK_SCAN fileType clock t).1.length ∧
      (ScanForFiles drivePath RecoveryMode.QUICK_SCAN fileType clock t).1.length = 5 ∧
      (RecoverFiles (ScanForFiles drivePath RecoveryMode.QUICK_SCAN fileType clock t).1
          outputPath t2).1 = true := by
  have hall : ∀ g ∈ (RecoverFiles
      (ScanForFiles drivePath RecoveryMode.QUICK_SCAN fileType clock t).1 outputPath t2).2.1,
      g.isRecovered = true := by
    intro g hg
    rw [RecoverFiles_files, List.mem_map] at hg
    obtain ⟨f, hf, rfl⟩ := hg
    obtain ⟨k, rfl⟩ := scan_fileName _ _ _ _ _ f hf
    rw [recoverEntry_of_gt _ _ (scanCandidate_confidence_gt _ _ _ k)]
  refine ⟨?_, hall, ?_, ?_, ?_⟩
  · intro r hr
    obtain ⟨k, rfl⟩ := scan_fileName _ _ _ _ _ r hr
    have hk : (0 : ℚ) ≤ ((20 * k : Nat) : ℚ) := Nat.cast_nonneg _
    refine ⟨?_, rfl⟩
    simp only [scanCandidate]
    linarith [div_nonneg hk (by norm_num : (0 : ℚ) ≤ 200)]
  · rw [List.countP_eq_length.mpr (fun g hg => hall g hg), RecoverFiles_files, List.length_map]
  · rw [ScanForFiles_results]; rfl
  · rw [RecoverFiles_value, ScanForFiles_results]
    simp [List.countP_cons, scanCandidate_confidence_gt]
    decide

/-- Claim C15. `ScanForFiles` returns exactly the candidates k = 1, ..., 5 in
this order; the k-th has fileName "recovered_file_" followed by the decimal k
and the extension of the file type, originalPath drivePath, backslash,
fileName, fileSize 1024 * (k + 1), confidence 0.85 + k / 10 and isRecovered =
false; the file names of one result list are pairwise distinct. -/
theorem C15_scan_lists_five_candidates (drivePath : String) (mode : RecoveryMode)
    (fileType : FileType) (clock : Nat → Nat) (t : ProgressTracker) :
    (ScanForFiles drivePath mode fileType clock t).1.map
        (fun r => (r.fileName, r.originalPath, r.fileSize, r.confidence, r.isRecovered)) =
      [1, 2, 3, 4, 5].map (fun k : Nat =>
        ("recovered_file_" ++ toString k ++ GetFileExtension fileType,
         drivePath ++ "\\" ++ ("recovered_file_" ++ toString k ++ GetFileExtension fileType),
         1024 * (k + 1), (85 : ℚ) / 100 + (k : ℚ) / 10, false)) ∧
      (ScanForFiles drivePath mode fileType clock t).1.map (fun r => r.fileName) =
        ["recovered_file_1" ++ GetFileExtension fileType,
         "recovered_file_2" ++ GetFileExtension fileType,
         "recovered_file_3" ++ GetFileExtension fileType,
         "recovered_file_4" ++ GetFileExtension fileType,
         "recovered_file_5" ++ GetFileExtension fileType] ∧
      ((ScanForFiles drivePath mode fileType clock t).1.map (fun r => r.fileName)).Nodup := by
  rw [ScanForFiles_results]
  refine ⟨?_, ?_, ?_⟩
  · simp only [List.map_cons, List.map_nil, scanCandidate]
    norm_num
  · simp only [List.map_cons, List.map_nil, scanCandidate]
    cases fileType <;> decide
  · simp only [List.map_cons, List.map_nil, scanCandidate]
    cases fileType <;> decide

/-! ## Claims about path validation, the threshold and totality -/

/-- Claim C16. `IsValidRecoveryPath` never lets an exception out and returns
false for the empty path. For a non-empty path (whose path object can be
built) it returns true exactly when the path has no parent component or the
existence oracle answers true for the parent; the path itself is never looked
up, so in the sample file system the missing directory `D:\out\new` is
accepted. -/
theorem C16_valid_recovery_path (fs : FileSystem) (path : String) :
    IsValidRecoveryPath fs "" = Except.ok false ∧
      (∃ b : Bool, IsValidRecoveryPath fs path = Except.ok b) ∧
      (∀ fsPath : String, path ≠ "" → fs.makePath path = Except.ok fsPath →
        (IsValidRecoveryPath fs path = Except.ok true ↔
          (fs.parent_path fsPath = "" ∨
            fs.pathExists (fs.parent_path fsPath) = Except.ok true))) ∧
      (∀ e : String, fs.makePath path = Except.error e →
        IsValidRecoveryPath fs path = Except.ok false) ∧
      (sampleFileSystem.pathExists "D:\\out\\new" = Except.ok false ∧
        IsValidRecoveryPath sampleFileSystem "D:\\out\\new" = Except.ok true) := by
  refine ⟨by simp [IsValidRecoveryPath], ?_, ?_, ?_, ?_⟩
  · unfold IsValidRecoveryPath
    by_cases hp : path = ""
    · exact ⟨false, by simp [hp]⟩
    · rw [if_neg hp]
      cases IsValidRecoveryPath.tryBlock fs path with
      | ok b => exact ⟨b, rfl⟩
      | error e => exact ⟨false, rfl⟩
  · intro fsPath hp hmk
    unfold IsValidRecoveryPath IsValidRecoveryPath.tryBlock
    rw [if_neg hp, hmk]
    by_cases hpar : fs.parent_path fsPath = ""
    · simp [hpar]
    · simp only [ne_eq, hpar, not_false_eq_true, if_true, false_or]
      cases fs.pathExists (fs.parent_path fsPath) with
      | ok b => cases b <;> simp
      | error e => simp
  · intro e hmk
    unfold IsValidRecoveryPath IsValidRecoveryPath.tryBlock
    by_cases hp : path = ""
    · simp [hp]
    · rw [if_neg hp, hmk]
  · have hparent : sampleFileSystem.parent_path "D:\\out\\new" = "D:\\out" := by decide
    constructor
    · exact congrArg Except.ok (by decide)
    · unfold IsValidRecoveryPath IsValidRecoveryPath.tryBlock
      rw [if_neg (by decide)]
      show (match (if sampleFileSystem.parent_path "D:\\out\\new" ≠ "" then
          sampleFileSystem.pathExists (sampleFileSystem.parent_path "D:\\out\\new")
        else Except.ok true) with
        | Except.ok b => Except.ok b
        | Except.error _ => Except.ok false) = Except.ok true
      rw [hparent, if_pos (by decide)]
      rfl

theorem recoverLoopChecked_spec (outputPath : String) :
    ∀ (suf pre : List RecoveryResult) (t : ProgressTracker) (r : Int),
      (List.range' pre.length suf.length).foldlM (recoverBodyChecked outputPath)
          { files := pre ++ suf, tracker := t, recovered := r } =
        some ((List.range' pre.length suf.length).foldl (recoverBody outputPath)
          { files := pre ++ suf, tracker := t, recovered := r }) := by
  intro suf
  induction suf with
  | nil => intro pre t r; rfl
  | cons f suf ih =>
    intro pre t r
    have h := ih (pre ++ [recoverEntry outputPath f])
      (UpdateProgress t (recoverPercent (pre.length + (suf.length + 1)) pre.length)
        ("Recovering: " ++ f.fileName))
      (if f.confidence > 7 / 10 then wrapInt32 (r + 1) else r)
    simp only [List.length_append, List.length_singleton] at h
    have hlen : ¬ (pre ++ f :: suf).length = 0 := by simp
    simp only [List.length_cons, List.range', List.foldlM_cons, List.foldl_cons,
      recoverBodyChecked, hlen, if_false, recoverBody_at]
    exact h

/-- Claim C18. The recovery loop never divides by zero: with the division by
`files.size()` checked in every iteration, `RecoverFiles` still returns its
result for every list. For the empty list no loop iteration runs (no call of
`UpdateProgress` is made), the list stays empty and the call returns false; for
a non-empty list the divisor, the length of the list, is not zero before or
after the call. -/
theorem C18_recover_files_total (files : List RecoveryResult) (outputPath : String)
    (t : ProgressTracker) :
    RecoverFilesChecked files outputPath t = some (RecoverFiles files outputPath t) ∧
      RecoverFiles [] outputPath t = (false, [], t) ∧
      passedPercentages t (RecoverFiles [] outputPath t).2.2 = [] ∧
      (files ≠ [] → files.length ≠ 0 ∧ (RecoverFiles files outputPath t).2.1.length ≠ 0) := by
  refine ⟨?_, rfl, ?_, ?_⟩
  · have h := recoverLoopChecked_spec outputPath files [] t 0
    simp only [List.length_nil, List.nil_append] at h
    unfold RecoverFilesChecked RecoverFiles
    rw [List.range_eq_range', h]
  · rw [passedPercentages_RecoverFiles]; rfl
  · intro hne
    have hlen : files.length ≠ 0 := fun h => hne (List.length_eq_zero.mp h)
    refine ⟨hlen, ?_⟩
    rw [RecoverFiles_files, List.length_map]
    exact hlen

/-- Claim C19. For every percentage p with 0 <= p <= 100 the update that
`UpdateProgress` writes asks for floor(p / 2) characters '=' and 50 -
floor(p / 2) blanks; both counts are non-negative, they add up to 50, and the
text is the bar between brackets followed by the percentage and the operation.
Every percentage passed by `ScanForFiles`, and by `RecoverFiles` on a list of
n files with 100 * n inside the range of `size_t`, lies in 0..100. -/
theorem C19_progress_bar_well_formed (drivePath : String) (mode : RecoveryMode)
    (fileType : FileType) (clock : Nat → Nat) (files : List RecoveryResult)
    (outputPath : String) (t : ProgressTracker) (hsz : 100 * files.length < 2 ^ 64) :
    (∀ (tr : ProgressTracker) (p : Int) (op : String), 0 ≤ p → p ≤ 100 →
        p ≠ tr.lastPercentage →
        ∃ l : ProgressLine, (UpdateProgress tr p op).emitted = tr.emitted ++ [l] ∧
          l.equalsCount = p / 2 ∧ l.spacesCount = 50 - p / 2 ∧
          0 ≤ l.equalsCount ∧ 0 ≤ l.spacesCount ∧ l.equalsCount + l.spacesCount = 50 ∧
          renderLine l = some ("\r[" ++ String.mk (List.replicate (p / 2).toNat '=')
            ++ String.mk (List.replicate (50 - p / 2).toNat ' ') ++ "] "
            ++ toString p ++ "% - " ++ op)) ∧
      (∀ p ∈ passedPercentages t (ScanForFiles drivePath mode fileType clock t).2,
        0 ≤ p ∧ p ≤ 100) ∧
      (∀ p ∈ passedPercentages t (RecoverFiles files outputPath t).2.2, 0 ≤ p ∧ p ≤ 100) := by
  refine ⟨?_, ?_, ?_⟩
  · intro tr p op h0 h100 hne
    have hdiv : Int.tdiv p 2 = p / 2 := Int.tdiv_eq_ediv h0 (by norm_num)
    have hlo : 0 ≤ p / 2 := by omega
    have hhi : 0 ≤ 50 - p / 2 := by omega
    refine ⟨{ equalsCount := Int.tdiv p 2, spacesCount := 50 - Int.tdiv p 2,
              percentage := p, operation := op }, ?_, hdiv, by rw [hdiv], ?_, ?_, ?_, ?_⟩
    · rw [UpdateProgress_emitted tr p op (by omega) (by omega), if_pos hne]
    · show 0 ≤ Int.tdiv p 2
      rw [hdiv]; exact hlo
    · show 0 ≤ 50 - Int.tdiv p 2
      rw [hdiv]; exact hhi
    · show Int.tdiv p 2 + (50 - Int.tdiv p 2) = 50
      omega
    · unfold renderLine
      simp only [hdiv]
      rw [if_pos ⟨hlo, hhi⟩]
  · have h : passedPercentages t (ScanForFiles drivePath mode fileType clock t).2 =
        [0, 5, 10, 15, 20, 25, 30, 35, 40, 45, 50, 55, 60, 65, 70, 75, 80, 85, 90, 95, 100] := by
      unfold passedPercentages
      rw [ScanForFiles_calls]
      simp [List.range, List.range.loop]
    rw [h]
    decide
  · intro p hp
    rw [passedPercentages_RecoverFiles, List.mem_map] at hp
    obtain ⟨i, hi, rfl⟩ := hp
    have hi2 : i < files.length := List.mem_range.mp hi
    rw [recoverPercent_eq _ _ hi2 hsz]
    have h2 : 100 * i / files.length < 100 := by
      rw [Nat.div_lt_iff_lt_mul (by omega)]
      nlinarith
    constructor
    · exact Int.ofNat_nonneg _
    · have : 100 * i / files.length ≤ 100 := by omega
      exact_mod_cast this

/-- Witness for C19: three files; the update for 33 % asks for 16 characters
'=' and 34 blanks. -/
theorem C19_progress_bar_well_formed_witness :
    100 * [samplePhotoA, sampleWeak, sampleSong].length < 2 ^ 64 ∧
      (∀ p ∈ passedPercentages ProgressTracker.fresh
          (RecoverFiles [samplePhotoA, sampleWeak, sampleSong] "D:\\out"
            ProgressTracker.fresh).2.2, 0 ≤ p ∧ p ≤ 100) ∧
      (UpdateProgress ProgressTracker.fresh 33 "Recovering: notes.docx").emitted.map
          (fun l => (l.equalsCount, l.spacesCount, renderLine l)) =
        [(16, 34, some "\r[================                                  ] 33% - Recovering: notes.docx")] :=
  ⟨by decide,
    (C19_progress_bar_well_formed "C:" RecoveryMode.QUICK_SCAN FileType.PHOTO (fun _ => 0)
      [samplePhotoA, sampleWeak, sampleSong] "D:\\out" ProgressTracker.fresh (by decide)).2.2,
    by decide⟩

/-! ## Claims about `FormatFileSize` -/

theorem formatLoop_lt (size : ℚ) (unit : Nat) (h : size < 1024) :
    formatLoop size unit = (size, unit) := by
  rw [formatLoop, if_neg]
  intro hc
  exact absurd hc.1 (not_le.mpr h)

theorem formatLoop_five (size : ℚ) : formatLoop size 5 = (size, 5) := by
  rw [formatLoop, if_neg]
  intro hc
  exact absurd hc.2 (by decide)

theorem formatLoop_ge (size : ℚ) (unit : Nat) (h : 1024 ≤ size) (hu : unit < 5) :
    formatLoop size unit = formatLoop (size / 1024) (unit + 1) := by
  rw [formatLoop, if_pos ⟨h, hu⟩]

theorem formatLoop_spec :
    ∀ (j unit : Nat) (size : ℚ), unit + j ≤ 5 → (j ≠ 0 → (1024 : ℚ) ^ j ≤ size) →
      (size < (1024 : ℚ) ^ (j + 1) ∨ unit + j = 5) →
      formatLoop size unit = (size / (1024 : ℚ) ^ j, unit + j) := by
  intro j
  induction j with
  | zero =>
    intro unit size _ _ hup
    rcases hup with h | h
    · rw [formatLoop_lt size unit (by simpa using h)]; simp
    · have hu : unit = 5 := by omega
      subst hu
      rw [formatLoop_five]; simp
  | succ j ih =>
    intro unit size hle hlow hup
    have hs : (1024 : ℚ) ^ (j + 1) ≤ size := hlow (Nat.succ_ne_zero j)
    have h1 : (1 : ℚ) ≤ (1024 : ℚ) ^ j := one_le_pow₀ (by norm_num)
    have hge : (1024 : ℚ) ≤ size := by
      have : (1024 : ℚ) ^ (j + 1) = 1024 ^ j * 1024 := pow_succ _ _
      nlinarith
    rw [formatLoop_ge size unit hge (by omega)]
    rw [ih (unit + 1) (size / 1024) (by omega) ?_ ?_]
    · rw [pow_succ, div_div, mul_comm]
      congr 1
      omega
    · intro _
      rw [le_div_iff₀ (by norm_num)]
      rw [pow_succ] at hs
      exact hs
    · rcases hup with h | h
      · left
        rw [div_lt_iff₀ (by norm_num)]
        rw [pow_succ] at h
        exact h
      · right; omega

theorem roundHalfEven_bounds (e bytes : Nat) :
    bytes / 2 ^ e * 2 ^ e ≤ roundHalfEven e bytes ∧
      roundHalfEven e bytes ≤ (bytes / 2 ^ e + 1) * 2 ^ e := by
  have hstep : bytes / 2 ^ e * 2 ^ e ≤ (bytes / 2 ^ e + 1) * 2 ^ e :=
    Nat.mul_le_mul_right _ (Nat.le_succ _)
  unfold roundHalfEven
  simp only
  split_ifs <;> exact ⟨by first | exact le_refl _ | exact hstep,
    by first | exact le_refl _ | exact hstep⟩

theorem roundHalfEven_binade (bytes : Nat) (h : 2 ^ 53 ≤ bytes) :
    2 ^ Nat.log2 bytes ≤ roundHalfEven (Nat.log2 bytes - 52) bytes ∧
      roundHalfEven (Nat.log2 bytes - 52) bytes ≤ 2 ^ (Nat.log2 bytes + 1) := by
  have hne : bytes ≠ 0 := by
    intro h0
    rw [h0] at h
    norm_num at h
  have hL : 53 ≤ Nat.log2 bytes := (Nat.le_log2 hne).mpr h
  have hlo : 2 ^ Nat.log2 bytes ≤ bytes := Nat.log2_self_le hne
  have hhi : bytes < 2 ^ (Nat.log2 bytes + 1) := Nat.lt_log2_self
  obtain ⟨e, he⟩ : ∃ e, Nat.log2 bytes = 52 + e := ⟨Nat.log2 bytes - 52, by omega⟩
  have hsub : Nat.log2 bytes - 52 = e := by omega
  rw [hsub]
  rw [he] at hlo hhi ⊢
  have hpos : 0 < 2 ^ e := Nat.pow_pos (by norm_num)
  have hq1 : 2 ^ 52 ≤ bytes / 2 ^ e := by
    rw [Nat.le_div_iff_mul_le hpos, ← pow_add]
    exact hlo
  have hq2 : bytes / 2 ^ e < 2 ^ 53 := by
    rw [Nat.div_lt_iff_lt_mul hpos, ← pow_add]
    have : 53 + e = 52 + e + 1 := by omega
    rw [this]
    exact hhi
  obtain ⟨hb1, hb2⟩ := roundHalfEven_bounds e bytes
  constructor
  · calc 2 ^ (52 + e) = 2 ^ 52 * 2 ^ e := pow_add 2 52 e
      _ ≤ bytes / 2 ^ e * 2 ^ e := Nat.mul_le_mul_right _ hq1
      _ ≤ roundHalfEven e bytes := hb1
  · calc roundHalfEven e bytes ≤ (bytes / 2 ^ e + 1) * 2 ^ e := hb2
      _ ≤ 2 ^ 53 * 2 ^ e := Nat.mul_le_mul_right _ hq2
      _ = 2 ^ (52 + e + 1) := by rw [← pow_add]; congr 1; omega

theorem toDouble_of_lt (bytes : Nat) (h : bytes < 2 ^ 53) : toDouble bytes = (bytes : ℚ) := by
  unfold toDouble
  rw [if_pos h]

theorem toDouble_ge (bytes : Nat) (h : 2 ^ 53 ≤ bytes) : (2 : ℚ) ^ 53 ≤ toDouble bytes := by
  have hne : bytes ≠ 0 := by
    intro h0
    rw [h0] at h
    norm_num at h
  have hL : 53 ≤ Nat.log2 bytes := (Nat.le_log2 hne).mpr h
  unfold toDouble
  rw [if_neg (by omega)]
  have h1 := (roundHalfEven_binade bytes h).1
  have h2 : 2 ^ 53 ≤ 2 ^ Nat.log2 bytes := Nat.pow_le_pow_right (by norm_num) hL
  exact_mod_cast le_trans h2 h1

theorem toDouble_le (bytes k : Nat) (h : bytes < 2 ^ k) :
    toDouble bytes ≤ (2 : ℚ) ^ k := by
  by_cases hb : bytes < 2 ^ 53
  · rw [toDouble_of_lt bytes hb]
    exact_mod_cast le_of_lt h
  · have hb2 : 2 ^ 53 ≤ bytes := by omega
    have hne : bytes ≠ 0 := by
      intro h0
      rw [h0] at hb2
      norm_num at hb2
    have hL : Nat.log2 bytes < k := (Nat.log2_lt hne).mpr h
    unfold toDouble
    rw [if_neg hb]
    have h1 := (roundHalfEven_binade bytes hb2).2
    have h2 : 2 ^ (Nat.log2 bytes + 1) ≤ 2 ^ k := Nat.pow_le_pow_right (by norm_num) hL
    exact_mod_cast le_trans h1 h2

theorem toDouble_lt_of_lt (bytes : Nat) (h : bytes < 2 ^ 60 - 64) :
    toDouble bytes < (2 : ℚ) ^ 60 := by
  by_cases hb : bytes < 2 ^ 59
  · have := toDouble_le bytes 59 hb
    have h2 : (2 : ℚ) ^ 59 < 2 ^ 60 := by norm_num
    exact lt_of_le_of_lt this h2
  · have hb2 : 2 ^ 59 ≤ bytes := by omega
    have hne : bytes ≠ 0 := by
      intro h0
      rw [h0] at hb2
      norm_num at hb2
    have hL1 : 59 ≤ Nat.log2 bytes := (Nat.le_log2 hne).mpr hb2
    have hL2 : Nat.log2 bytes < 60 := (Nat.log2_lt hne).mpr (by omega)
    have hL : Nat.log2 bytes = 59 := by omega
    unfold toDouble
    rw [if_neg (by norm_num at hb2 ⊢; omega), hL]
    have hr : roundHalfEven (59 - 52) bytes < 2 ^ 60 := by
      unfold roundHalfEven
      norm_num at h hb2 ⊢
      split_ifs <;> omega
    exact_mod_cast hr

theorem toDouble_window (bytes : Nat) :
    (min 5 (Nat.log 1024 bytes) ≠ 0 →
        (1024 : ℚ) ^ (min 5 (Nat.log 1024 bytes)) ≤ toDouble bytes) ∧
      (toDouble bytes < (1024 : ℚ) ^ (min 5 (Nat.log 1024 bytes) + 1) ∨
        0 + min 5 (Nat.log 1024 bytes) = 5) := by
  by_cases hb : bytes < 2 ^ 53
  · rw [toDouble_of_lt bytes hb]
    constructor
    · intro hj
      have hne : bytes ≠ 0 := by
        intro h0
        rw [h0] at hj
        simp at hj
      have h1 : 1024 ^ Nat.log 1024 bytes ≤ bytes := Nat.pow_log_le_self 1024 hne
      have h2 : 1024 ^ (min 5 (Nat.log 1024 bytes)) ≤ 1024 ^ Nat.log 1024 bytes :=
        Nat.pow_le_pow_right (by norm_num) (Nat.min_le_right _ _)
      exact_mod_cast le_trans h2 h1
    · by_cases hL : Nat.log 1024 bytes < 5
      · left
        rw [Nat.min_eq_right (le_of_lt hL)]
        have h3 : bytes < 1024 ^ (Nat.log 1024 bytes).succ :=
          Nat.lt_pow_succ_log_self (by norm_num) bytes
        exact_mod_cast h3
      · right
        rw [Nat.min_eq_left (by omega)]
  · have hb2 : 2 ^ 53 ≤ bytes := by omega
    have hL : 5 ≤ Nat.log 1024 bytes :=
      Nat.le_log_of_pow_le (by norm_num) (le_trans (by norm_num) hb2)
    rw [Nat.min_eq_left hL]
    refine ⟨fun _ => ?_, Or.inr rfl⟩
    have h1 := toDouble_ge bytes hb2
    have h2 : (1024 : ℚ) ^ 5 ≤ 2 ^ 53 := by norm_num
    exact le_trans h2 h1

theorem formatLoop_toDouble (bytes : Nat) :
    formatLoop (toDouble bytes) 0 =
      (toDouble bytes / (1024 : ℚ) ^ (min 5 (Nat.log 1024 bytes)),
        min 5 (Nat.log 1024 bytes)) := by
  obtain ⟨h1, h2⟩ := toDouble_window bytes
  rw [formatLoop_spec (min 5 (Nat.log 1024 bytes)) 0 (toDouble bytes)
    (by simp) h1 h2, Nat.zero_add]

theorem roundHalfEvenRat_eq_of_near (y : ℚ) (K : ℤ) (h1 : (K : ℚ) - 1 / 2 < y)
    (h2 : y < (K : ℚ) + 1 / 2) : roundHalfEvenRat y = K := by
  have f1 : ((⌊y⌋ : ℤ) : ℚ) ≤ y := Int.floor_le y
  have f2 : y < ((⌊y⌋ : ℤ) : ℚ) + 1 := Int.lt_floor_add_one y
  have hlo : K - 1 ≤ ⌊y⌋ := by
    have : ((K - 1 : ℤ) : ℚ) < ((⌊y⌋ + 1 : ℤ) : ℚ) := by push_cast; linarith
    have h3 : K - 1 < ⌊y⌋ + 1 := by exact_mod_cast this
    omega
  have hhi : ⌊y⌋ ≤ K := by
    have : ((⌊y⌋ : ℤ) : ℚ) < ((K + 1 : ℤ) : ℚ) := by push_cast; linarith
    have h3 : ⌊y⌋ < K + 1 := by exact_mod_cast this
    omega
  rcases (by omega : ⌊y⌋ = K ∨ ⌊y⌋ = K - 1) with hf | hf
  · unfold roundHalfEvenRat
    rw [hf, if_pos (by linarith)]
  · have hgt : 1 < 2 * (y - ((K - 1 : ℤ) : ℚ)) := by push_cast; linarith
    unfold roundHalfEvenRat
    rw [hf, if_neg (by linarith), if_pos hgt]
    omega

theorem FormatFileSize_of_unit (fixed2 : ℚ → String) (bytes j : Nat)
    (hj : min 5 (Nat.log 1024 bytes) = j) (hj0 : j ≠ 0) :
    FormatFileSize fixed2 bytes =
      fixed2 (toDouble bytes / (1024 : ℚ) ^ j) ++ " " ++ units.getD j "" := by
  unfold FormatFileSize
  simp only [formatLoop_toDouble, hj, hj0, if_false]

theorem FormatFileSize_in_window (fixed2 : ℚ → String) (bytes j : Nat) (hj0 : j ≠ 0)
    (hj5 : j < 5) (h1 : 1024 ^ j ≤ bytes) (h2 : bytes < 1024 ^ (j + 1)) :
    FormatFileSize fixed2 bytes =
      fixed2 ((bytes : ℚ) / (1024 : ℚ) ^ j) ++ " " ++ units.getD j "" := by
  have hlog : Nat.log 1024 bytes = j := Nat.log_eq_of_pow_le_of_lt_pow h1 h2
  have hlt : bytes < 2 ^ 53 := by
    have h3 : (1024 : ℕ) ^ (j + 1) ≤ 1024 ^ 5 := Nat.pow_le_pow_right (by norm_num) (by omega)
    have h4 : (1024 : ℕ) ^ 5 < 2 ^ 53 := by norm_num
    omega
  rw [FormatFileSize_of_unit fixed2 bytes j (by rw [hlog]; omega) hj0, toDouble_of_lt bytes hlt]

/-- Counterexample to C20. The count 2^60 - 1 lies in [1024, 1024^6), but its
conversion to `double` is 2^60: the loop leaves with unit 5 and the magnitude
1024, which is not below 1024 and is not (2^60 - 1) / 1024^5; the output is
"1024.00 PB". The count 2^53 + 1 is converted to 2^53, so the magnitude is 8
and not (2^53 + 1) / 1024^5. The count 1048575 = 1024^2 - 1 has the magnitude
1048575 / 1024 below 1024, and the output shows it as "1024.00 KB". -/
theorem C20_magnitude_of_rounded_count :
    toDouble 1152921504606846975 = 1152921504606846976 ∧
      formatLoop (toDouble 1152921504606846975) 0 = (1024, 5) ∧
      (1024 ≤ 1152921504606846975 ∧ 1152921504606846975 < 1024 ^ 6) ∧
      (1024 : ℚ) ≠ (1152921504606846975 : ℚ) / 1024 ^ 5 ∧
      toDouble 9007199254740993 = 9007199254740992 ∧
      formatLoop (toDouble 9007199254740993) 0 = (8, 5) ∧
      (8 : ℚ) ≠ (9007199254740993 : ℚ) / 1024 ^ 5 ∧
      FormatFileSize fixedTwo 1152921504606846975 = "1024.00 PB" ∧
      FormatFileSize fixedTwo 1048575 = "1024.00 KB" := by
  have hlogA : Nat.log2 1152921504606846975 = 59 := by
    have h1 : 59 ≤ Nat.log2 1152921504606846975 := (Nat.le_log2 (by norm_num)).mpr (by norm_num)
    have h2 : Nat.log2 1152921504606846975 < 60 := (Nat.log2_lt (by norm_num)).mpr (by norm_num)
    omega
  have hlogB : Nat.log2 9007199254740993 = 53 := by
    have h1 : 53 ≤ Nat.log2 9007199254740993 := (Nat.le_log2 (by norm_num)).mpr (by norm_num)
    have h2 : Nat.log2 9007199254740993 < 54 := (Nat.log2_lt (by norm_num)).mpr (by norm_num)
    omega
  have hA : toDouble 1152921504606846975 = 1152921504606846976 := by
    unfold toDouble
    rw [if_neg (by norm_num), hlogA]
    have : roundHalfEven (59 - 52) 1152921504606846975 = 1152921504606846976 := by decide
    rw [this]
    norm_num
  have hB : toDouble 9007199254740993 = 9007199254740992 := by
    unfold toDouble
    rw [if_neg (by norm_num), hlogB]
    have : roundHalfEven (53 - 52) 9007199254740993 = 9007199254740992 := by decide
    rw [this]
    norm_num
  have hloop : ∀ s : ℚ, (1024 : ℚ) ^ 5 ≤ s → formatLoop s 0 = (s / 1024 ^ 5, 5) := by
    intro s hs
    rw [formatLoop_spec 5 0 s (by norm_num) (fun _ => hs) (Or.inr rfl)]
  refine ⟨hA, ?_, ⟨by norm_num, by norm_num⟩, by norm_num, hB, ?_, by norm_num, ?_, ?_⟩
  · rw [hA, hloop _ (by norm_num)]
    norm_num
  · rw [hB, hloop _ (by norm_num)]
    norm_num
  · have hj : min 5 (Nat.log 1024 1152921504606846975) = 5 :=
      Nat.min_eq_left (Nat.le_log_of_pow_le (by norm_num) (by norm_num))
    have hr : roundHalfEvenRat ((1152921504606846976 : ℚ) / 1024 ^ 5 * 100) = 102400 :=
      roundHalfEvenRat_eq_of_near _ 102400 (by norm_num) (by norm_num)
    rw [FormatFileSize_of_unit fixedTwo _ 5 hj (by norm_num), hA]
    unfold fixedTwo
    simp only [hr]
    decide
  · have hr : roundHalfEvenRat (((1048575 : ℕ) : ℚ) / 1024 ^ 1 * 100) = 102400 :=
      roundHalfEvenRat_eq_of_near _ 102400 (by norm_num) (by norm_num)
    rw [FormatFileSize_in_window fixedTwo 1048575 1 (by norm_num) (by norm_num) (by norm_num)
      (by norm_num)]
    unfold fixedTwo
    simp only [hr]
    decide

/-- Claim C20 as amended. For every byte count b the loop leaves with the unit
index u = min(5, max{ j : 1024^j <= b }) (u = 0 when b < 1024) after u <= 5
iterations, and the magnitude is d(b) / 1024^u, where d(b) is b converted to
`double`; d(b) = b for b < 2^53. For 1024 <= b < 1024^6 the magnitude lies in
[1, 1024], and it is below 1024 when b < 2^60 - 64. For b < 1024 the output is
the decimal b followed by " B"; for b >= 1024 it is the magnitude printed with
two decimals, a blank and the label of the unit: b / 1024 and KB below 1024^2,
b / 1024^2 and MB below 1024^3, b / 1024^3 and GB below 1024^4, b / 1024^4 and
TB below 1024^5, d(b) / 1024^5 and PB from 1024^5 on. -/
theorem C20_format_file_size_units (fixed2 : ℚ → String) (bytes : Nat) :
    (formatLoop (toDouble bytes) 0).2 = min 5 (Nat.log 1024 bytes) ∧
      (bytes < 1024 → (formatLoop (toDouble bytes) 0).2 = 0) ∧
      (formatLoop (toDouble bytes) 0).2 ≤ 5 ∧
      (formatLoop (toDouble bytes) 0).1 =
        toDouble bytes / (1024 : ℚ) ^ (formatLoop (toDouble bytes) 0).2 ∧
      (bytes < 2 ^ 53 → toDouble bytes = (bytes : ℚ)) ∧
      (1024 ≤ bytes → bytes < 1024 ^ 6 →
        1 ≤ (formatLoop (toDouble bytes) 0).1 ∧ (formatLoop (toDouble bytes) 0).1 ≤ 1024) ∧
      (1024 ≤ bytes → bytes < 2 ^ 60 - 64 → (formatLoop (toDouble bytes) 0).1 < 1024) ∧
      (bytes < 1024 → FormatFileSize fixed2 bytes = toString bytes ++ " B") ∧
      (1024 ≤ bytes → FormatFileSize fixed2 bytes =
        fixed2 (toDouble bytes / (1024 : ℚ) ^ (min 5 (Nat.log 1024 bytes))) ++ " " ++
          ["B", "KB", "MB", "GB", "TB", "PB"].getD (min 5 (Nat.log 1024 bytes)) "") ∧
      (1024 ≤ bytes → bytes < 1024 ^ 2 →
        FormatFileSize fixed2 bytes = fixed2 ((bytes : ℚ) / 1024) ++ " KB") ∧
      (1024 ^ 2 ≤ bytes → bytes < 1024 ^ 3 →
        FormatFileSize fixed2 bytes = fixed2 ((bytes : ℚ) / 1024 ^ 2) ++ " MB") ∧
      (1024 ^ 3 ≤ bytes → bytes < 1024 ^ 4 →
        FormatFileSize fixed2 bytes = fixed2 ((bytes : ℚ) / 1024 ^ 3) ++ " GB") ∧
      (1024 ^ 4 ≤ bytes → bytes < 1024 ^ 5 →
        FormatFileSize fixed2 bytes = fixed2 ((bytes : ℚ) / 1024 ^ 4) ++ " TB") ∧
      (1024 ^ 5 ≤ bytes →
        FormatFileSize fixed2 bytes = fixed2 (toDouble bytes / 1024 ^ 5) ++ " PB") := by
  have hout : ∀ j : Nat, j ≠ 0 → j < 5 → 1024 ^ j ≤ bytes → bytes < 1024 ^ (j + 1) →
      FormatFileSize fixed2 bytes =
        fixed2 ((bytes : ℚ) / (1024 : ℚ) ^ j) ++ (" " ++ units.getD j "") := by
    intro j hj0 hj5 h1 h2
    rw [FormatFileSize_in_window fixed2 bytes j hj0 hj5 h1 h2, String.append_assoc]
  have hloop := formatLoop_toDouble bytes
  obtain ⟨hlow, hup⟩ := toDouble_window bytes
  have hpow : (0 : ℚ) < (1024 : ℚ) ^ (min 5 (Nat.log 1024 bytes)) := by positivity
  have hsmall : bytes < 1024 → min 5 (Nat.log 1024 bytes) = 0 := by
    intro h
    rw [Nat.log_of_lt h]
    rfl
  have hbig : 1024 ≤ bytes → min 5 (Nat.log 1024 bytes) ≠ 0 := by
    intro h
    have h1 : 1 ≤ Nat.log 1024 bytes := Nat.le_log_of_pow_le (by norm_num) (by simpa using h)
    have h2 : 1 ≤ min 5 (Nat.log 1024 bytes) := Nat.le_min.mpr ⟨by norm_num, h1⟩
    omega
  have hupper : toDouble bytes < (2 : ℚ) ^ 60 →
      toDouble bytes / (1024 : ℚ) ^ (min 5 (Nat.log 1024 bytes)) < 1024 := by
    intro hs
    rw [div_lt_iff₀ hpow]
    rcases hup with h | h
    · rw [pow_succ, mul_comm] at h
      exact h
    · have hj : min 5 (Nat.log 1024 bytes) = 5 := by omega
      rw [hj]
      norm_num at hs ⊢
      exact hs
  rw [hloop]
  refine ⟨rfl, hsmall, Nat.min_le_left _ _, rfl, toDouble_of_lt bytes, ?_, ?_, ?_, ?_,
    ?_, ?_, ?_, ?_, ?_⟩
  · intro h1 h2
    constructor
    · show 1 ≤ toDouble bytes / (1024 : ℚ) ^ (min 5 (Nat.log 1024 bytes))
      rw [le_div_iff₀ hpow, one_mul]
      exact hlow (hbig h1)
    · show toDouble bytes / (1024 : ℚ) ^ (min 5 (Nat.log 1024 bytes)) ≤ 1024
      rw [div_le_iff₀ hpow]
      rcases hup with h | h
      · rw [pow_succ, mul_comm] at h
        exact le_of_lt h
      · have hj : min 5 (Nat.log 1024 bytes) = 5 := by omega
        rw [hj]
        have hs := toDouble_le bytes 60 (by norm_num at h2 ⊢; exact h2)
        norm_num at hs ⊢
        exact hs
  · intro _ h2
    exact hupper (toDouble_lt_of_lt bytes h2)
  · intro h
    unfold FormatFileSize
    simp only [hloop, hsmall h, pow_zero, div_one, if_true]
    rw [toDouble_of_lt bytes (by norm_num at h ⊢; omega), Nat.floor_natCast, String.append_assoc]
    rfl
  · intro h
    exact FormatFileSize_of_unit fixed2 bytes _ rfl (hbig h)
  · intro h1 h2
    have h := hout 1 (by norm_num) (by norm_num) (by simpa using h1) h2
    rw [pow_one] at h
    exact h
  · intro h1 h2
    exact hout 2 (by norm_num) (by norm_num) h1 h2
  · intro h1 h2
    exact hout 3 (by norm_num) (by norm_num) h1 h2
  · intro h1 h2
    exact hout 4 (by norm_num) (by norm_num) h1 h2
  · intro h1
    have hj : min 5 (Nat.log 1024 bytes) = 5 :=
      Nat.min_eq_left (Nat.le_log_of_pow_le (by norm_num) h1)
    rw [FormatFileSize_of_unit fixed2 bytes 5 hj (by norm_num), String.append_assoc]
    rfl



/-! ## Rounding to `double` -/

theorem roundHalfEvenRat_ge (y : ℚ) (K : ℤ) (h : (K : ℚ) ≤ y) : K ≤ roundHalfEvenRat y := by
  have hf : K ≤ ⌊y⌋ := Int.le_floor.mpr h
  unfold roundHalfEvenRat
  split_ifs <;> omega

theorem roundHalfEvenRat_lt (y : ℚ) (K : ℤ) (h : y + 1 / 2 < (K : ℚ)) :
    roundHalfEvenRat y < K := by
  have hf : ((⌊y⌋ : ℤ) : ℚ) ≤ y := Int.floor_le y
  have h0 : ⌊y⌋ < K := by
    have : ((⌊y⌋ : ℤ) : ℚ) < (K : ℚ) := by linarith
    exact_mod_cast this
  have h1 : ¬ 2 * (y - ⌊y⌋) < 1 → ⌊y⌋ + 1 < K := by
    intro hn
    have : (((⌊y⌋ + 1 : ℤ)) : ℚ) < (K : ℚ) := by
      push_cast
      linarith [not_lt.mp hn]
    exact_mod_cast this
  unfold roundHalfEvenRat
  split_ifs with c1 c2 c3
  · exact h0
  · exact h1 c1
  · exact h0
  · exact h1 c1

theorem roundHalfEvenRat_intCast (K : ℤ) : roundHalfEvenRat (K : ℚ) = K := by
  unfold roundHalfEvenRat
  simp

theorem grid_of_pos (x : ℚ) (hx : 0 < x) (hlt : x < 2 ^ 53) :
    ∃ N : Nat, (2 : ℚ) ^ (Int.log 2 x - 52) = 1 / 2 ^ N ∧
      2 ^ 52 ≤ x * 2 ^ N ∧ x * 2 ^ N < 2 ^ 53 := by
  have hlo : ((2 : ℕ) : ℚ) ^ Int.log 2 x ≤ x := Int.zpow_log_le_self (by norm_num) hx
  have hhi : x < ((2 : ℕ) : ℚ) ^ (Int.log 2 x + 1) := Int.lt_zpow_succ_log_self (by norm_num) x
  have hE : Int.log 2 x < 53 := by
    rw [← Int.lt_zpow_iff_log_lt (by norm_num) hx]
    exact_mod_cast hlt
  rw [Nat.cast_ofNat] at hlo hhi
  obtain ⟨N, hN⟩ : ∃ N : Nat, (N : ℤ) = 52 - Int.log 2 x := ⟨(52 - Int.log 2 x).toNat, by omega⟩
  have hpos : (0 : ℚ) < 2 ^ N := by positivity
  have e1 : Int.log 2 x - 52 = -(N : ℤ) := by omega
  have e2 : Int.log 2 x = 52 - (N : ℤ) := by omega
  have e3 : Int.log 2 x + 1 = 53 - (N : ℤ) := by omega
  have two_ne : (2 : ℚ) ≠ 0 := by norm_num
  refine ⟨N, ?_, ?_, ?_⟩
  · rw [e1, zpow_neg, zpow_natCast, one_div]
  · rw [e2, zpow_sub₀ two_ne, zpow_natCast] at hlo
    rw [div_le_iff₀ hpos] at hlo
    exact_mod_cast hlo
  · rw [e3, zpow_sub₀ two_ne, zpow_natCast] at hhi
    rw [lt_div_iff₀ hpos] at hhi
    exact_mod_cast hhi

theorem roundNearest_of_pos (x : ℚ) (hx : 0 < x) (hlt : x < 2 ^ 53) :
    ∃ N : Nat, roundNearest x = (roundHalfEvenRat (x * 2 ^ N) : ℚ) / 2 ^ N ∧
      2 ^ 52 ≤ x * 2 ^ N ∧ x * 2 ^ N < 2 ^ 53 := by
  obtain ⟨N, hg, h1, h2⟩ := grid_of_pos x hx hlt
  refine ⟨N, ?_, h1, h2⟩
  unfold roundNearest
  rw [if_neg (ne_of_gt hx), if_pos hx, hg]
  simp only [one_div, div_inv_eq_mul]
  rfl

theorem roundNearest_ge_int (x : ℚ) (k : ℤ) (hx : 0 < x) (hlt : x < 2 ^ 53)
    (hk : (k : ℚ) ≤ x) : (k : ℚ) ≤ roundNearest x := by
  obtain ⟨N, hr, _, _⟩ := roundNearest_of_pos x hx hlt
  have hpos : (0 : ℚ) < 2 ^ N := by positivity
  have h1 : ((k * 2 ^ N : ℤ) : ℚ) ≤ x * 2 ^ N := by
    push_cast
    exact mul_le_mul_of_nonneg_right hk (le_of_lt hpos)
  have h2 := roundHalfEvenRat_ge _ _ h1
  have h3 : ((k * 2 ^ N : ℤ) : ℚ) ≤ (roundHalfEvenRat (x * 2 ^ N) : ℚ) := by exact_mod_cast h2
  rw [hr, le_div_iff₀ hpos]
  push_cast at h3
  exact h3

theorem roundNearest_div_lt (m n c : Nat) (k : ℤ) (hm : m < 2 ^ 53) (hm0 : 0 < m) (hc : 0 < c)
    (hlt : (m : ℚ) / 2 ^ n < (c : ℚ) * k) :
    roundNearest ((m : ℚ) / 2 ^ n / c) < (k : ℚ) := by
  have hA : (0 : ℚ) < 2 ^ n := by positivity
  have hcq : (0 : ℚ) < (c : ℚ) := by exact_mod_cast hc
  have hmq : (0 : ℚ) < (m : ℚ) := by exact_mod_cast hm0
  have hm53 : (m : ℚ) < 2 ^ 53 := by exact_mod_cast hm
  have hx : (0 : ℚ) < (m : ℚ) / 2 ^ n / c := by positivity
  have hA1 : (1 : ℚ) ≤ 2 ^ n := one_le_pow₀ (by norm_num)
  have hc1 : (1 : ℚ) ≤ (c : ℚ) := by exact_mod_cast hc
  have hxm : (m : ℚ) / 2 ^ n / c ≤ m := by
    rw [div_div, div_le_iff₀ (by positivity)]
    exact le_mul_of_one_le_right (le_of_lt hmq) (one_le_mul_of_one_le_of_one_le hA1 hc1)
  obtain ⟨N, hr, hlo, _⟩ := roundNearest_of_pos _ hx (lt_of_le_of_lt hxm hm53)
  have hB : (0 : ℚ) < 2 ^ N := by positivity
  -- the grid of the quotient is finer than twice the gap below `c * k`
  have hprod : (m : ℚ) / 2 ^ n / c * 2 ^ N * (2 ^ n * c) = m * 2 ^ N := by
    field_simp
  have hAc : (2 : ℚ) ^ n * c < 2 * 2 ^ N := by
    have h1 : (2 : ℚ) ^ 52 * (2 ^ n * c) ≤ m * 2 ^ N := by
      rw [← hprod]
      exact mul_le_mul_of_nonneg_right hlo (by positivity)
    nlinarith
  have hgap : (m : ℚ) + 1 ≤ c * k * 2 ^ n := by
    have h1 : (m : ℚ) < c * k * 2 ^ n := by
      rw [div_lt_iff₀ hA] at hlt
      exact hlt
    have h2 : ((m : ℤ)) < (c : ℤ) * k * 2 ^ n := by exact_mod_cast h1
    have h3 : ((m : ℤ)) + 1 ≤ (c : ℤ) * k * 2 ^ n := h2
    exact_mod_cast h3
  have hkey : (m : ℚ) / 2 ^ n / c * 2 ^ N + 1 / 2 < ((k * 2 ^ N : ℤ) : ℚ) := by
    push_cast
    have hpos : (0 : ℚ) < 2 ^ n * c := by positivity
    have e1 : ((m : ℚ) / 2 ^ n / c * 2 ^ N + 1 / 2) * (2 ^ n * c) =
        m * 2 ^ N + (2 ^ n * c) / 2 := by
      rw [add_mul, hprod]; ring
    have e2 : (k : ℚ) * 2 ^ N * (2 ^ n * c) = 2 ^ N * (c * k * 2 ^ n) := by ring
    have e3 : (2 : ℚ) ^ N * (m + 1) ≤ 2 ^ N * (c * k * 2 ^ n) :=
      mul_le_mul_of_nonneg_left hgap (le_of_lt hB)
    have hmul : ((m : ℚ) / 2 ^ n / c * 2 ^ N + 1 / 2) * (2 ^ n * c) <
        (k : ℚ) * 2 ^ N * (2 ^ n * c) := by
      rw [e1, e2]
      nlinarith
    exact lt_of_mul_lt_mul_right hmul (le_of_lt hpos)
  have h2 := roundHalfEvenRat_lt _ _ hkey
  have h3 : (roundHalfEvenRat ((m : ℚ) / 2 ^ n / c * 2 ^ N) : ℚ) < ((k * 2 ^ N : ℤ) : ℚ) := by
    exact_mod_cast h2
  rw [hr, div_lt_iff₀ hB]
  push_cast at h3
  exact h3

theorem roundNearest_of_dyadic (m n : Nat) (hm : m < 2 ^ 53) :
    roundNearest ((m : ℚ) / 2 ^ n) = (m : ℚ) / 2 ^ n := by
  rcases Nat.eq_zero_or_pos m with h0 | hpos
  · subst h0
    simp [roundNearest]
  · have hA : (0 : ℚ) < 2 ^ n := by positivity
    have hmq : (0 : ℚ) < (m : ℚ) := by exact_mod_cast hpos
    have hm53 : (m : ℚ) < 2 ^ 53 := by exact_mod_cast hm
    have hA1 : (1 : ℚ) ≤ 2 ^ n := one_le_pow₀ (by norm_num)
    have hx : (0 : ℚ) < (m : ℚ) / 2 ^ n := by positivity
    have hxm : (m : ℚ) / 2 ^ n ≤ m := by
      rw [div_le_iff₀ hA]
      nlinarith
    obtain ⟨N, hr, hlo, _⟩ := roundNearest_of_pos _ hx (lt_of_le_of_lt hxm hm53)
    have hB : (0 : ℚ) < 2 ^ N := by positivity
    have hnN : n ≤ N := by
      have h1 : (2 : ℚ) ^ 52 * 2 ^ n ≤ m * 2 ^ N := by
        have : (m : ℚ) / 2 ^ n * 2 ^ N * 2 ^ n = m * 2 ^ N := by field_simp
        rw [← this]
        exact mul_le_mul_of_nonneg_right hlo (le_of_lt hA)
      have h2 : (2 : ℚ) ^ n < 2 ^ (N + 1) := by
        rw [pow_succ]
        nlinarith
      have h3 : (2 : ℕ) ^ n < 2 ^ (N + 1) := by exact_mod_cast h2
      have h4 : n < N + 1 := (Nat.pow_lt_pow_iff_right (by norm_num)).mp h3
      omega
    obtain ⟨j, rfl⟩ : ∃ j, N = n + j := ⟨N - n, by omega⟩
    have hint : (m : ℚ) / 2 ^ n * 2 ^ (n + j) = ((m * 2 ^ j : ℤ) : ℚ) := by
      push_cast
      rw [pow_add]
      field_simp
      ring
    rw [hr, hint, roundHalfEvenRat_intCast]
    push_cast
    rw [pow_add]
    field_simp
    ring

theorem isDouble_normal (s : ℚ) (hs : IsDouble s) (hlt : s < 2 ^ 53) :
    ∃ m n : Nat, m < 2 ^ 53 ∧ s = (m : ℚ) / 2 ^ n := by
  obtain ⟨m, e, hm, _, _, rfl⟩ := hs
  rcases le_or_lt e 0 with he | he
  · obtain ⟨n, hn⟩ : ∃ n : Nat, e = -(n : ℤ) := ⟨(-e).toNat, by omega⟩
    refine ⟨m, n, hm, ?_⟩
    rw [hn, zpow_neg, zpow_natCast, div_eq_mul_inv]
  · obtain ⟨t, ht⟩ : ∃ t : Nat, e = (t : ℤ) := ⟨e.toNat, by omega⟩
    rw [ht, zpow_natCast] at hlt ⊢
    refine ⟨m * 2 ^ t, 0, ?_, ?_⟩
    · exact_mod_cast hlt
    · push_cast
      simp

theorem castInt_fdiv (m n c : Nat) (k : ℤ) (hm : m < 2 ^ 53) (hc : 0 < c)
    (h1 : (c : ℚ) * k ≤ (m : ℚ) / 2 ^ n) (h2 : (m : ℚ) / 2 ^ n < (c : ℚ) * (k + 1)) :
    castInt (roundNearest ((m : ℚ) / 2 ^ n / c)) = k := by
  have hcq : (0 : ℚ) < (c : ℚ) := by exact_mod_cast hc
  have hA : (0 : ℚ) < 2 ^ n := by positivity
  have hs0 : (0 : ℚ) ≤ (m : ℚ) / 2 ^ n := by positivity
  have hk0 : 0 ≤ k := by
    have h3 : (0 : ℚ) < (c : ℚ) * (k + 1) := lt_of_le_of_lt hs0 h2
    have h4 : (0 : ℚ) < (k : ℚ) + 1 := by
      by_contra hneg
      have : (c : ℚ) * (k + 1) ≤ 0 := mul_nonpos_of_nonneg_of_nonpos (le_of_lt hcq) (not_lt.mp hneg)
      linarith
    have h5 : (0 : ℤ) < k + 1 := by exact_mod_cast h4
    omega
  rcases Nat.eq_zero_or_pos m with h0 | hpos
  · subst h0
    have hk : k = 0 := by
      have h3 : (c : ℚ) * k ≤ 0 := by simpa using h1
      have h4 : (k : ℚ) ≤ 0 := by
        by_contra hneg
        have : 0 < (c : ℚ) * k := mul_pos hcq (not_le.mp hneg)
        linarith
      have h5 : k ≤ 0 := by exact_mod_cast h4
      omega
    simp [roundNearest, castInt, hk]
  · have hmq : (0 : ℚ) < (m : ℚ) := by exact_mod_cast hpos
    have hm53 : (m : ℚ) < 2 ^ 53 := by exact_mod_cast hm
    have hA1 : (1 : ℚ) ≤ 2 ^ n := one_le_pow₀ (by norm_num)
    have hc1 : (1 : ℚ) ≤ (c : ℚ) := by exact_mod_cast hc
    have hx : (0 : ℚ) < (m : ℚ) / 2 ^ n / c := by positivity
    have hxm : (m : ℚ) / 2 ^ n / c ≤ m := by
      rw [div_div, div_le_iff₀ (by positivity)]
      exact le_mul_of_one_le_right (le_of_lt hmq) (one_le_mul_of_one_le_of_one_le hA1 hc1)
    have hkx : (k : ℚ) ≤ (m : ℚ) / 2 ^ n / c := by
      rw [le_div_iff₀ hcq, mul_comm]
      exact h1
    have hge := roundNearest_ge_int _ k hx (lt_of_le_of_lt hxm hm53) hkx
    have hlt : roundNearest ((m : ℚ) / 2 ^ n / c) < ((k + 1 : ℤ) : ℚ) :=
      roundNearest_div_lt m n c (k + 1) hm hpos hc (by push_cast; exact h2)
    have hnonneg : (0 : ℚ) ≤ roundNearest ((m : ℚ) / 2 ^ n / c) :=
      le_trans (by exact_mod_cast hk0) hge
    unfold castInt
    rw [if_pos hnonneg, Int.floor_eq_iff]
    exact ⟨hge, by push_cast at hlt; exact hlt⟩

theorem floor_window (s : ℚ) (c : Nat) (hc : 0 < c) :
    ((c : ℚ) * ((⌊s⌋ / (c : ℤ) : ℤ) : ℚ) ≤ s) ∧
      s < (c : ℚ) * (((⌊s⌋ / (c : ℤ) : ℤ) : ℚ) + 1) := by
  have hcz : (0 : ℤ) < (c : ℤ) := by exact_mod_cast hc
  have h1 : (c : ℤ) * (⌊s⌋ / (c : ℤ)) ≤ ⌊s⌋ := Int.mul_ediv_self_le (ne_of_gt hcz)
  have h2 : ⌊s⌋ < (c : ℤ) * (⌊s⌋ / (c : ℤ)) + (c : ℤ) := Int.lt_mul_ediv_self_add hcz
  have h3 : ⌊s⌋ + 1 ≤ (c : ℤ) * (⌊s⌋ / (c : ℤ) + 1) := by
    rw [mul_add, mul_one]
    omega
  have f1 : ((⌊s⌋ : ℤ) : ℚ) ≤ s := Int.floor_le s
  have f2 : s < ((⌊s⌋ : ℤ) : ℚ) + 1 := Int.lt_floor_add_one s
  have q1 : (((c : ℤ) * (⌊s⌋ / (c : ℤ)) : ℤ) : ℚ) ≤ ((⌊s⌋ : ℤ) : ℚ) := by exact_mod_cast h1
  have q3 : (((⌊s⌋ + 1 : ℤ)) : ℚ) ≤ (((c : ℤ) * (⌊s⌋ / (c : ℤ) + 1) : ℤ) : ℚ) := by
    exact_mod_cast h3
  push_cast at q1 q3
  constructor
  · linarith
  · linarith

theorem FormatDuration_minutes (m n : Nat) (hm : m < 2 ^ 53)
    (h60 : 60 ≤ (m : ℚ) / 2 ^ n) (h3600 : (m : ℚ) / 2 ^ n < 3600) :
    FormatDuration ((m : ℚ) / 2 ^ n) =
      toString (⌊(m : ℚ) / 2 ^ n⌋ / 60) ++ "m " ++ toString (⌊(m : ℚ) / 2 ^ n⌋ % 60) ++ "s" := by
  obtain ⟨w1, w2⟩ := floor_window ((m : ℚ) / 2 ^ n) 60 (by norm_num)
  have hmin := castInt_fdiv m n 60 (⌊(m : ℚ) / 2 ^ n⌋ / ((60 : ℕ) : ℤ)) hm (by norm_num) w1 w2
  simp only [Nat.cast_ofNat] at hmin
  have hs0 : (0 : ℚ) ≤ (m : ℚ) / 2 ^ n := by positivity
  have hfl : 0 ≤ ⌊(m : ℚ) / 2 ^ n⌋ := Int.floor_nonneg.mpr hs0
  have hcast : castInt ((m : ℚ) / 2 ^ n) = ⌊(m : ℚ) / 2 ^ n⌋ := by
    unfold castInt
    rw [if_pos hs0]
  unfold FormatDuration
  rw [if_neg (not_lt.mpr h60), if_pos h3600]
  simp only [hmin, hcast, Int.tmod_eq_emod hfl (by norm_num : (0 : ℤ) ≤ 60)]

theorem FormatDuration_hours (m n : Nat) (hm : m < 2 ^ 53)
    (h3600 : 3600 ≤ (m : ℚ) / 2 ^ n) (hint : (m : ℚ) / 2 ^ n < 2 ^ 31) :
    FormatDuration ((m : ℚ) / 2 ^ n) =
      toString (⌊(m : ℚ) / 2 ^ n⌋ / 3600) ++ "h " ++
        toString (⌊(m : ℚ) / 2 ^ n - ((⌊(m : ℚ) / 2 ^ n⌋ / 3600 * 3600 : ℤ) : ℚ)⌋ / 60) ++ "m" := by
  have hA : (0 : ℚ) < 2 ^ n := by positivity
  obtain ⟨w1, w2⟩ := floor_window ((m : ℚ) / 2 ^ n) 3600 (by norm_num)
  have hhr := castInt_fdiv m n 3600 (⌊(m : ℚ) / 2 ^ n⌋ / ((3600 : ℕ) : ℤ)) hm (by norm_num) w1 w2
  simp only [Nat.cast_ofNat] at hhr w1 w2
  have f1 : ((⌊(m : ℚ) / 2 ^ n⌋ : ℤ) : ℚ) ≤ (m : ℚ) / 2 ^ n := Int.floor_le _
  have hfl_lo : 3600 ≤ ⌊(m : ℚ) / 2 ^ n⌋ := Int.le_floor.mpr (by exact_mod_cast h3600)
  have hfl_hi : ⌊(m : ℚ) / 2 ^ n⌋ < 2 ^ 31 := by
    have : ((⌊(m : ℚ) / 2 ^ n⌋ : ℤ) : ℚ) < ((2 ^ 31 : ℤ) : ℚ) := by
      push_cast
      linarith
    exact_mod_cast this
  -- the `int` product `hours * 3600` does not overflow
  have hwrap : wrapInt32 (⌊(m : ℚ) / 2 ^ n⌋ / 3600 * 3600) = ⌊(m : ℚ) / 2 ^ n⌋ / 3600 * 3600 := by
    unfold wrapInt32
    norm_num at hfl_hi ⊢
    omega
  -- the subtraction is exact
  obtain ⟨j, hj⟩ : ∃ j : Nat, (j : ℤ) = ⌊(m : ℚ) / 2 ^ n⌋ / 3600 * 3600 :=
    ⟨(⌊(m : ℚ) / 2 ^ n⌋ / 3600 * 3600).toNat, by omega⟩
  have hjq : ((⌊(m : ℚ) / 2 ^ n⌋ / 3600 * 3600 : ℤ) : ℚ) = (j : ℚ) := by
    rw [← hj]; simp
  have hjs : (j : ℚ) ≤ (m : ℚ) / 2 ^ n := by
    rw [← hjq]
    push_cast
    linarith
  have hjm : j * 2 ^ n ≤ m := by
    rw [le_div_iff₀ hA] at hjs
    exact_mod_cast hjs
  have hsub : (m : ℚ) / 2 ^ n - (j : ℚ) = ((m - j * 2 ^ n : ℕ) : ℚ) / 2 ^ n := by
    rw [Nat.cast_sub hjm]
    push_cast
    field_simp
    ring
  have hm2 : m - j * 2 ^ n < 2 ^ 53 := lt_of_le_of_lt (Nat.sub_le _ _) hm
  have hd0 : (0 : ℚ) ≤ (m : ℚ) / 2 ^ n - (j : ℚ) := by linarith
  obtain ⟨v1, v2⟩ := floor_window ((m : ℚ) / 2 ^ n - (j : ℚ)) 60 (by norm_num)
  rw [hsub] at v1 v2
  have hmin := castInt_fdiv (m - j * 2 ^ n) n 60
    (⌊((m - j * 2 ^ n : ℕ) : ℚ) / 2 ^ n⌋ / ((60 : ℕ) : ℤ)) hm2 (by norm_num) v1 v2
  simp only [Nat.cast_ofNat] at hmin
  unfold FormatDuration
  rw [if_neg (by linarith), if_neg (not_lt.mpr h3600)]
  simp only [hhr, hwrap, hjq, hsub, roundNearest_of_dyadic _ _ hm2, hmin]


/-! ## Claim about `FormatDuration` -/

/-- Claim C21. For every duration whose count s of seconds is a `double`:
with 0 <= s < 60 `FormatDuration` returns floor(s) followed by " seconds";
with 60 <= s < 3600 it returns "<m>m <r>s" with 1 <= m <= 59, 0 <= r <= 59 and
60 * m + r = floor(s); with 3600 <= s < 2^31 it returns "<h>h <m>m" with
h >= 1, 0 <= m <= 59 and 3600 * h + 60 * m <= s < 3600 * h + 60 * (m + 1). The
rounding of the two divisions never moves a quotient across an integer. -/
theorem C21_format_duration_decomposes (s : ℚ) (hs : IsDouble s) :
    (0 ≤ s → s < 60 → FormatDuration s = toString ⌊s⌋ ++ " seconds") ∧
      (60 ≤ s → s < 3600 →
        ∃ m r : ℤ, FormatDuration s = toString m ++ "m " ++ toString r ++ "s" ∧
          1 ≤ m ∧ m ≤ 59 ∧ 0 ≤ r ∧ r ≤ 59 ∧ 60 * m + r = ⌊s⌋) ∧
      (3600 ≤ s → s < 2 ^ 31 →
        ∃ h m : ℤ, FormatDuration s = toString h ++ "h " ++ toString m ++ "m" ∧
          1 ≤ h ∧ 0 ≤ m ∧ m ≤ 59 ∧
          (3600 * h + 60 * m : ℚ) ≤ s ∧ s < 3600 * h + 60 * (m + 1)) := by
  refine ⟨?_, ?_, ?_⟩
  · intro h0 h60
    unfold FormatDuration castInt
    rw [if_pos h60, if_pos h0]
  · intro h60 h3600
    obtain ⟨m, n, hm, rfl⟩ := isDouble_normal s hs (lt_trans h3600 (by norm_num))
    have hlo : 60 ≤ ⌊(m : ℚ) / 2 ^ n⌋ := Int.le_floor.mpr (by exact_mod_cast h60)
    have hhi : ⌊(m : ℚ) / 2 ^ n⌋ < 3600 := Int.floor_lt.mpr (by exact_mod_cast h3600)
    refine ⟨⌊(m : ℚ) / 2 ^ n⌋ / 60, ⌊(m : ℚ) / 2 ^ n⌋ % 60,
      FormatDuration_minutes m n hm h60 h3600, ?_, ?_, ?_, ?_, ?_⟩ <;> omega
  · intro h3600 hint
    obtain ⟨m, n, hm, rfl⟩ := isDouble_normal s hs (lt_trans hint (by norm_num))
    have hlo : 3600 ≤ ⌊(m : ℚ) / 2 ^ n⌋ := Int.le_floor.mpr (by exact_mod_cast h3600)
    obtain ⟨w1, w2⟩ := floor_window ((m : ℚ) / 2 ^ n) 3600 (by norm_num)
    simp only [Nat.cast_ofNat] at w1 w2
    have hd0 : (0 : ℚ) ≤ (m : ℚ) / 2 ^ n - ((⌊(m : ℚ) / 2 ^ n⌋ / 3600 * 3600 : ℤ) : ℚ) := by
      push_cast
      linarith
    have hd1 : (m : ℚ) / 2 ^ n - ((⌊(m : ℚ) / 2 ^ n⌋ / 3600 * 3600 : ℤ) : ℚ) < 3600 := by
      push_cast
      linarith
    have hf0 : 0 ≤ ⌊(m : ℚ) / 2 ^ n - ((⌊(m : ℚ) / 2 ^ n⌋ / 3600 * 3600 : ℤ) : ℚ)⌋ :=
      Int.floor_nonneg.mpr hd0
    have hf1 : ⌊(m : ℚ) / 2 ^ n - ((⌊(m : ℚ) / 2 ^ n⌋ / 3600 * 3600 : ℤ) : ℚ)⌋ < 3600 :=
      Int.floor_lt.mpr (by exact_mod_cast hd1)
    obtain ⟨v1, v2⟩ := floor_window
      ((m : ℚ) / 2 ^ n - ((⌊(m : ℚ) / 2 ^ n⌋ / 3600 * 3600 : ℤ) : ℚ)) 60 (by norm_num)
    simp only [Nat.cast_ofNat] at v1 v2
    refine ⟨⌊(m : ℚ) / 2 ^ n⌋ / 3600,
      ⌊(m : ℚ) / 2 ^ n - ((⌊(m : ℚ) / 2 ^ n⌋ / 3600 * 3600 : ℤ) : ℚ)⌋ / 60,
      FormatDuration_hours m n hm h3600 hint, by omega, by omega, by omega, ?_, ?_⟩
    · push_cast at v1 ⊢
      linarith
    · push_cast at v2 ⊢
      linarith

/-- Witness for C21: 3725.5 seconds are a `double` (7451 * 2^-1) and are
printed as "1h 2m". -/
theorem C21_format_duration_decomposes_witness :
    IsDouble (7451 / 2) ∧ (3600 : ℚ) ≤ 7451 / 2 ∧ (7451 / 2 : ℚ) < 2 ^ 31 ∧
      FormatDuration (7451 / 2) = "1h 2m" := by
  have hd : IsDouble (7451 / 2) := ⟨7451, -1, by norm_num, by norm_num, by norm_num, by norm_num⟩
  refine ⟨hd, by norm_num, by norm_num, ?_⟩
  obtain ⟨h, m, hstr, h1, hm0, hm59, hlo, hhi⟩ :=
    (C21_format_duration_decomposes (7451 / 2) hd).2.2 (by norm_num) (by norm_num)
  have hlo2 : ((7200 * h + 120 * m : ℤ) : ℚ) ≤ ((7451 : ℤ) : ℚ) := by
    push_cast
    linarith
  have hhi2 : ((7451 : ℤ) : ℚ) < ((7200 * h + 120 * (m + 1) : ℤ) : ℚ) := by
    push_cast
    linarith
  have hlo3 : 7200 * h + 120 * m ≤ 7451 := by exact_mod_cast hlo2
  have hhi3 : 7451 < 7200 * h + 120 * (m + 1) := by exact_mod_cast hhi2
  have hh : h = 1 := by omega
  have hmm : m = 2 := by omega
  rw [hstr, hh, hmm]
  decide

end Stellar
